import Mathlib

/-!
# Verification of the curve-processing core of `src/compute.py`

Shallow embedding of `Main._evaluate_and_plot`, `Plot.__init__` and
`Plot.mean_and_std` from `src/compute.py`.  Real numbers are modelled as
rationals; numpy arrays as `List ℚ` / `List Bool`.  The call to
`sklearn.metrics.precision_recall_curve` (compute.py:166) is embedded from the
library's documented semantics (`_binary_clf_curve` followed by the
reverse-slice and the appended endpoint), composed with the repo's own
normalization `recalls[~np.isfinite(recalls)] = 0` (compute.py:170): rational
division by zero yields `0`, which is exactly that composition, since the only
non-finite values sklearn can produce here are the `0/0` recalls of an
all-negative ground truth.  Classes imported from `evaluation.segmentation`
(not under `src/`) are modelled from the spec and marked as such.
-/

namespace SSBC

/-- Embeds `np.argmax`: index of the first maximal element (compute.py:186, 277). -/
def npArgmax (xs : List ℚ) : ℕ :=
  xs.findIdx (fun x => xs.all (fun y => decide (y ≤ x)))

/-- Keep the elements of `xs` at the positions listed in `K`, in order.
`np.delete(xs, to_delete)` is `select K xs` for `K` the ascending list of
indices not in `to_delete`. -/
def select (K : List ℕ) (xs : List α) : List α :=
  K.filterMap (fun k => xs[k]?)

/-! ## Precision-recall curve construction (sklearn semantics, compute.py:164-170) -/

/-- The (score, label) pairs in descending score order: sklearn
`_binary_clf_curve` takes a stable ascending argsort of the scores and
reverses it. -/
def descPairs (gt : List Bool) (pred : List ℚ) : List (ℚ × Bool) :=
  (List.insertionSort (fun a b : ℚ × Bool => a.1 ≤ b.1) (pred.zip gt)).reverse

/-- Scores in descending order. -/
def scoresDesc (gt : List Bool) (pred : List ℚ) : List ℚ :=
  (descPairs gt pred).map Prod.fst

/-- Labels reordered by descending score. -/
def labelsDesc (gt : List Bool) (pred : List ℚ) : List Bool :=
  (descPairs gt pred).map Prod.snd

/-- Embeds `tps[k]`: number of positive labels among the `k+1` highest-scored samples
(sklearn `np.cumsum(y_true)[k]` in descending score order). -/
def tpsAt (gt : List Bool) (pred : List ℚ) (k : ℕ) : ℕ :=
  ((labelsDesc gt pred).take (k + 1)).count true

/-- Embeds `tps[-1]`: the total number of positive ground-truth samples. -/
def totalPos (gt : List Bool) (pred : List ℚ) : ℕ :=
  (labelsDesc gt pred).count true

/-- sklearn `threshold_idxs`: the positions in the descending score list where
a threshold point is emitted - positions whose score differs from the next
one, plus the final position. -/
def thresholdIdxs (gt : List Bool) (pred : List ℚ) : List ℕ :=
  (List.range (scoresDesc gt pred).length).filter (fun k =>
    decide (k + 1 = (scoresDesc gt pred).length) ||
    decide ((scoresDesc gt pred).getD k 0 ≠ (scoresDesc gt pred).getD (k + 1) 0))

/-- sklearn `last_ind = tps.searchsorted(tps[-1])`: since `tps` is
non-decreasing and bounded by `tps[-1]`, the left insertion point is the first
threshold-point position whose `tps` equals the total. -/
def lastInd (gt : List Bool) (pred : List ℚ) : ℕ :=
  (thresholdIdxs gt pred).findIdx (fun k => decide (tpsAt gt pred k = totalPos gt pred))

/-- The threshold-point positions kept by sklearn's reverse slice
`sl = slice(last_ind, None, -1)`, in output order. -/
def sliceK (gt : List Bool) (pred : List ℚ) : List ℕ :=
  ((thresholdIdxs gt pred).take (lastInd gt pred + 1)).reverse

/-- Raw recall sequence as seen after compute.py:170: sklearn's
`np.hstack((recall[sl], 0))` where `recall = tps/tps[-1]`, with the `0/0 = NaN`
recalls of an all-negative ground truth already normalized to `0` (rational
division by zero is `0`). -/
def rawRecalls (gt : List Bool) (pred : List ℚ) : List ℚ :=
  (sliceK gt pred).map (fun k => (tpsAt gt pred k : ℚ) / (totalPos gt pred : ℚ)) ++ [0]

/-- Raw precision sequence: sklearn's `np.hstack((precision[sl], 1))` where
`precision = tps/(tps+fps) = tps/(k+1)` (the denominator is never zero). -/
def rawPrecisions (gt : List Bool) (pred : List ℚ) : List ℚ :=
  (sliceK gt pred).map (fun k => (tpsAt gt pred k : ℚ) / ((k : ℚ) + 1)) ++ [1]

/-- Raw threshold sequence: sklearn's `thresholds[sl]` followed by the repo's
`thresholds = np.append(thresholds, 1.)` (compute.py:167). -/
def rawThresholds (gt : List Bool) (pred : List ℚ) : List ℚ :=
  (sliceK gt pred).map (fun k => (scoresDesc gt pred).getD k 0) ++ [1]

/-! ## Duplicate-recall suppression (compute.py:171-183) -/

/-- Whether curve point `i` survives duplicate-recall suppression.  The code
groups indices by equal recall via a stable ascending argsort (every group is
listed in ascending index order), stable-sorts each group by precision and
deletes all but the last entry; so the survivor of each group is its
lexicographically largest member under the key (precision, index). -/
def keptB (rs ps : List ℚ) (i : ℕ) : Bool :=
  (List.range rs.length).all (fun j =>
    decide (rs.getD j 0 ≠ rs.getD i 0) || decide (j = i) ||
    decide (ps.getD j 0 < ps.getD i 0) ||
    (decide (ps.getD j 0 = ps.getD i 0) && decide (j < i)))

/-- The ascending list of indices surviving duplicate-recall suppression. -/
def keptIdxs (rs ps : List ℚ) : List ℕ :=
  (List.range rs.length).filter (keptB rs ps)

/-- Deduplicated recalls (`np.delete(recalls, to_delete)`, compute.py:181). -/
def dedupRecalls (gt : List Bool) (pred : List ℚ) : List ℚ :=
  select (keptIdxs (rawRecalls gt pred) (rawPrecisions gt pred)) (rawRecalls gt pred)

/-- Deduplicated precisions (compute.py:182). -/
def dedupPrecisions (gt : List Bool) (pred : List ℚ) : List ℚ :=
  select (keptIdxs (rawRecalls gt pred) (rawPrecisions gt pred)) (rawPrecisions gt pred)

/-- Deduplicated thresholds (compute.py:183). -/
def dedupThresholds (gt : List Bool) (pred : List ℚ) : List ℚ :=
  select (keptIdxs (rawRecalls gt pred) (rawPrecisions gt pred)) (rawThresholds gt pred)

/-! ## Best-F1 selection (compute.py:184-190) -/

/-- Elementwise F1: `2 * precisions * recalls / (precisions + recalls)`
(compute.py:185).  After deduplication the denominator is never zero (proved
below), so rational division agrees with the floating-point computation. -/
def f1Of (p r : ℚ) : ℚ := 2 * p * r / (p + r)

/-- The F1 sequence over the deduplicated curve. -/
def dedupF1s (gt : List Bool) (pred : List ℚ) : List ℚ :=
  List.zipWith f1Of (dedupPrecisions gt pred) (dedupRecalls gt pred)

/-- Embeds `idx = f1scores.argmax()` (compute.py:186). -/
def bestIdx (gt : List Bool) (pred : List ℚ) : ℕ :=
  npArgmax (dedupF1s gt pred)

/-! ## Edge-case repair (compute.py:156-162) -/

/-- Embeds `if not np.any(pred): pred = pred.copy(); pred[0] = .5` - value-level
effect (the heap-level copy semantics is modelled separately below). -/
def repairPred (pred : List ℚ) : List ℚ :=
  if pred.all (fun x => decide (x = 0)) then pred.set 0 (1/2) else pred

/-- Embeds `if not np.any(bin_): bin_ = bin_.copy(); bin_[0] = 1`. -/
def repairBin (b : List Bool) : List Bool :=
  if b.all (fun x => !x) then b.set 0 true else b

/-! ## Metric accumulators and evaluation records -/

/-- Modelled from the spec: the Metric Accumulator of §4.1 - the metric
classes of `evaluation.segmentation` are not under `src/`.  Holds a running
count and mean (`new_mean = old_mean + (value - old_mean)/new_count`) and the
most recent observation, returned by `last()`. -/
structure Accumulator where
  count : ℕ
  mean : ℚ
  lastv : ℚ
deriving Repr, DecidableEq

/-- A freshly constructed accumulator. -/
def Accumulator.start : Accumulator := ⟨0, 0, 0⟩

/-- Embeds `update(value)`: fold one observation into the running mean. -/
def Accumulator.update (a : Accumulator) (v : ℚ) : Accumulator :=
  ⟨a.count + 1, a.mean + (v - a.mean) / ((a.count : ℚ) + 1), v⟩

/-- Modelled from the spec: the probabilistic Evaluation Record (§4.2,
`BinaryIntensitySegmentationEvaluation`, not under `src/`); only the fields
the claims mention (F1, precision, recall) are carried. -/
structure ProbEval where
  f1score : Accumulator
  precision : Accumulator
  «recall» : Accumulator
deriving Repr, DecidableEq

/-- Modelled from the spec: the binarized Evaluation Record (§4.2,
`BinarySegmentationEvaluation`, not under `src/`); only precision and recall
are carried (they feed the Curve's binarized marker point). -/
structure BinEval where
  precision : Accumulator
  «recall» : Accumulator
deriving Repr, DecidableEq

/-- True positives between a ground truth and a binary prediction. -/
def tpCount (gt b : List Bool) : ℕ :=
  (gt.zip b).countP (fun x => x.1 && x.2)

/-- Modelled from the spec: binarized-modality precision `TP/(TP+FP)`, with
`0/0` normalized to `0` (§7). -/
def binPrecisionOf (gt b : List Bool) : ℚ :=
  (tpCount gt b : ℚ) / (b.count true : ℚ)

/-- Modelled from the spec: binarized-modality recall `TP/(TP+FN)`, with
`0/0` normalized to `0` (§7). -/
def binRecallOf (gt b : List Bool) : ℚ :=
  (tpCount gt b : ℚ) / (gt.count true : ℚ)

/-! ## The Curve object (`Plot`, compute.py:237-253) -/

/-- The `Plot` value object of compute.py: recall/precision/threshold/F1
sequences plus the two optional marker points. -/
structure Plot where
  «recall» : List ℚ
  precision : List ℚ
  threshold : Option (List ℚ)
  f1 : List ℚ
  f1_point : Option (ℚ × ℚ)
  bin_point : Option (ℚ × ℚ)
deriving Repr, DecidableEq

/-- Embeds `Plot.__init__` (compute.py:238-253): F1 is derived as
`2*precision*recall/(precision+recall)` when not supplied, then a degenerate
single-point curve is repaired - if its only recall is nonzero the point
`(0, 0)` is prepended, otherwise recall becomes `[0, 1]` and precision
`[precision[0], 0]`.  The repair touches only recall and precision.  An empty
recall (an `IndexError` in the source) is outside the modelled domain; `getD`
supplies a default there. -/
def mkPlot (rc pc : List ℚ) (threshold : Option (List ℚ))
    (f1 : Option (List ℚ)) (f1_point bin_point : Option (ℚ × ℚ)) : Plot :=
  let f1v := f1.getD (List.zipWith f1Of pc rc)
  if rc.length < 2 then
    if rc.getD 0 0 ≠ 0 then
      { «recall» := [0, rc.getD 0 0], precision := [0, pc.getD 0 0],
        threshold := threshold, f1 := f1v, f1_point := f1_point, bin_point := bin_point }
    else
      { «recall» := [0, 1], precision := [pc.getD 0 0, 0],
        threshold := threshold, f1 := f1v, f1_point := f1_point, bin_point := bin_point }
  else
    { «recall» := rc, precision := pc,
      threshold := threshold, f1 := f1v, f1_point := f1_point, bin_point := bin_point }

/-! ## `Main._evaluate_and_plot` (compute.py:152-208) -/

/-- The body of `_evaluate_and_plot` after the edge-case repair: curve
construction, duplicate-recall suppression, best-F1 selection, record
population and `Plot` construction. -/
def evaluateBody (pred : List ℚ) (bin : List Bool) (gt : List Bool) :
    ProbEval × BinEval × Plot :=
  let rs := dedupRecalls gt pred
  let ps := dedupPrecisions gt pred
  let ts := dedupThresholds gt pred
  let f1s := dedupF1s gt pred
  let idx := npArgmax f1s
  let predEval : ProbEval :=
    { f1score := Accumulator.start.update (f1s.getD idx 0)
      precision := Accumulator.start.update (ps.getD idx 0)
      «recall» := Accumulator.start.update (rs.getD idx 0) }
  let binEval : BinEval :=
    { precision := Accumulator.start.update (binPrecisionOf gt bin)
      «recall» := Accumulator.start.update (binRecallOf gt bin) }
  (predEval, binEval,
    mkPlot rs ps (some ts) (some f1s)
      (some (rs.getD idx 0, ps.getD idx 0))
      (some (binRecallOf gt bin, binPrecisionOf gt bin)))

/-- Embeds `_evaluate_and_plot` as a pure function of the three input arrays. -/
def evaluatePure (pred : List ℚ) (bin : List Bool) (gt : List Bool) :
    ProbEval × BinEval × Plot :=
  evaluateBody (repairPred pred) (repairBin bin) gt

/-! ## Heap-level model of the edge-case repair (compute.py:156-162)

The repair is the only part of `_evaluate_and_plot` that assigns into an
array; everything else only reads the inputs and allocates fresh outputs.  To
state the frame property we model numpy arrays as identifiers into a store,
`pred = pred.copy()` as an allocation and `pred[0] = .5` as a store write at
the identifier currently bound to the local variable. -/

/-- A store of rational-valued and boolean-valued arrays, with allocation
counters (all live identifiers are below the counter). -/
structure Heap where
  qArrs : ℕ → List ℚ
  bArrs : ℕ → List Bool
  nextQ : ℕ
  nextB : ℕ

/-- Allocate a fresh rational array (`pred.copy()`). -/
def allocQ (h : Heap) (v : List ℚ) : Heap × ℕ :=
  ({ h with qArrs := fun j => if j = h.nextQ then v else h.qArrs j,
            nextQ := h.nextQ + 1 }, h.nextQ)

/-- Write one element of a rational array in place (`pred[0] = .5`). -/
def writeQ (h : Heap) (r i : ℕ) (v : ℚ) : Heap :=
  { h with qArrs := fun j => if j = r then (h.qArrs r).set i v else h.qArrs j }

/-- Allocate a fresh boolean array (`bin_.copy()`). -/
def allocB (h : Heap) (v : List Bool) : Heap × ℕ :=
  ({ h with bArrs := fun j => if j = h.nextB then v else h.bArrs j,
            nextB := h.nextB + 1 }, h.nextB)

/-- Write one element of a boolean array in place (`bin_[0] = 1`). -/
def writeB (h : Heap) (r i : ℕ) (v : Bool) : Heap :=
  { h with bArrs := fun j => if j = r then (h.bArrs r).set i v else h.bArrs j }

/-- Embeds `_evaluate_and_plot` over the store: the caller passes the identifiers of
its three arrays; the repair rebinds the local variables to repaired copies
(compute.py:156-162) and the rest of the body runs on the arrays the locals
point to. -/
def evaluateHeap (h : Heap) (predId binId gtId : ℕ) :
    Heap × (ProbEval × BinEval × Plot) :=
  let pred0 := h.qArrs predId
  let s1 : Heap × ℕ :=
    if pred0.all (fun x => decide (x = 0)) then
      let hc := allocQ h pred0
      (writeQ hc.1 hc.2 0 (1/2), hc.2)
    else (h, predId)
  let bin0 := s1.1.bArrs binId
  let s2 : Heap × ℕ :=
    if bin0.all (fun x => !x) then
      let hc := allocB s1.1 bin0
      (writeB hc.1 hc.2 0 true, hc.2)
    else (s1.1, binId)
  (s2.1, evaluateBody (s2.1.qArrs s1.2) (s2.1.bArrs s2.2) (s2.1.bArrs gtId))

/-! ## Curve aggregation (`Plot.mean_and_std`, compute.py:256-283) -/

/-- Embeds `np.sqrt`, used by `np.std`.  On rationals this is exact whenever the
argument is the square of a non-negative rational (every case the claims
reach has this form; `Nat.sqrt` rounds otherwise). -/
def ratSqrt (q : ℚ) : ℚ :=
  (Nat.sqrt q.num.natAbs : ℚ) / (Nat.sqrt q.den : ℚ)

/-- Embeds `scipy.interpolate.interp1d`, which first stable-sorts its nodes by x-value. -/
def sortNodes (xs ys : List ℚ) : List (ℚ × ℚ) :=
  List.insertionSort (fun a b : ℚ × ℚ => a.1 ≤ b.1) (xs.zip ys)

/-- Evaluation of a linear `interp1d` at one in-range query point:
`j = clip(searchsorted(x, q), 1, n-1)`, then
`y[j-1] + (y[j] - y[j-1]) / (x[j] - x[j-1]) * (q - x[j-1])`. -/
def interpEval (nodes : List (ℚ × ℚ)) (q : ℚ) : ℚ :=
  let j := min (max (nodes.findIdx (fun nd => decide (q ≤ nd.1))) 1) (nodes.length - 1)
  let lo := nodes.getD (j - 1) (0, 0)
  let hi := nodes.getD j (0, 0)
  lo.2 + (hi.2 - lo.2) / (hi.1 - lo.1) * (q - lo.1)

/-- One row of compute.py:264-269: `interp1d(plot.recall, plot.precision)(interp)`.
`interp1d` demands at least two nodes and, with the default `bounds_error`,
raises when a query point lies below the smallest or above the largest node
x-value (the head and last of the sorted node list). -/
def interpRow (p : Plot) (interp : List ℚ) : Except String (List ℚ) :=
  if p.«recall».length < 2 then
    Except.error ("x and y arrays must have at least 2 entries")
  else
    let nodes := sortNodes p.«recall» p.precision
    if interp.any (fun q =>
        decide (q < (nodes.headD (0, 0)).1) || decide ((nodes.getLastD (0, 0)).1 < q)) then
      Except.error ("A value in x_new is below or above the interpolation range")
    else
      Except.ok (interp.map (interpEval nodes))

/-- Column-wise mean of the stacked precision rows (`precision.mean(0)`). -/
def colMean (rows : List (List ℚ)) (glen n : ℕ) : List ℚ :=
  (List.range glen).map (fun j => ((rows.map (fun r => r.getD j 0)).sum) / (n : ℚ))

/-- Column-wise standard deviation (`precision.std(0)`): the square root of
the mean squared deviation from the column mean. -/
def colStd (rows : List (List ℚ)) (mean : List ℚ) (glen n : ℕ) : List ℚ :=
  (List.range glen).map (fun j =>
    ratSqrt (((rows.map (fun r => (r.getD j 0 - mean.getD j 0) ^ 2)).sum) / (n : ℚ)))

/-- Modelled from the spec: the `F` metric class of `evaluation.segmentation`
(not under `src/`) recomputes F1 from precision and recall on the mean curve
(§4.4 step 4: `F1 = 2PR/(P+R)`, `0/0` normalized to `0` per §7). -/
def fSpec (p r : ℚ) : ℚ := 2 * p * r / (p + r)

/-- Embeds `Plot.mean_and_std(plots, interp)` (compute.py:256-283) over an explicit
grid, with the error conditions of the numpy/scipy calls it makes:
per-curve interpolation failures (too few nodes, out-of-range grid point),
`np.vstack` of an empty collection, a missing `bin_point` marker, and
`argmax` of an empty sequence. -/
def mean_and_std (plots : List Plot) (interp : List ℚ) :
    Except String (Plot × Plot × Plot) :=
  (plots.mapM (fun p => interpRow p interp)).bind (fun rows =>
  if plots.length = 0 then Except.error ("need at least one array to concatenate") else
  (plots.mapM (fun (p : Plot) =>
    (match p.bin_point with
    | some pt => Except.ok pt
    | none => Except.error ("bin_point missing") : Except String (ℚ × ℚ)))).bind (fun binPts =>
  if interp.length = 0 then Except.error ("attempt to get argmax of an empty sequence") else
  let n := plots.length
  let mean := colMean rows interp.length n
  let std := colStd rows mean interp.length n
  let f1s := List.zipWith fSpec mean interp
  let idx := npArgmax f1s
  let binMean : ℚ × ℚ :=
    ((binPts.map Prod.fst).sum / (n : ℚ), (binPts.map Prod.snd).sum / (n : ℚ))
  Except.ok
    (mkPlot interp mean none none (some (interp.getD idx 0, mean.getD idx 0)) (some binMean),
     mkPlot interp (List.zipWith (fun a b => a - b) mean std) none none none none,
     mkPlot interp (List.zipWith (fun a b => a + b) mean std) none none none none)))

/-! ## Properties of `np.argmax` -/

theorem npArgmax_lt_length (xs : List ℚ) (hne : xs ≠ []) : npArgmax xs < xs.length := by
  rcases List.maximum_eq_coe_iff.mp
    (WithBot.coe_unbot _ (by simpa [List.maximum_eq_bot] using hne)).symm with ⟨hmem, hmax⟩
  exact List.findIdx_lt_length.mpr
    ⟨_, hmem, List.all_eq_true.mpr fun y hy => decide_eq_true (hmax y hy)⟩

theorem npArgmax_is_max (xs : List ℚ) (hne : xs ≠ []) :
    ∀ j, j < xs.length → xs.getD j 0 ≤ xs.getD (npArgmax xs) 0 := by
  intro j hj
  have hlt := npArgmax_lt_length xs hne
  have hp : ∀ y ∈ xs, y ≤ xs[npArgmax xs] := by
    have := List.findIdx_getElem (w := hlt) (p := fun x => xs.all (fun y => decide (y ≤ x)))
    simpa [List.all_eq_true] using this
  rw [List.getD_eq_getElem _ _ hj, List.getD_eq_getElem _ _ hlt]
  exact hp _ (List.getElem_mem hj)

theorem npArgmax_first (xs : List ℚ) (hne : xs ≠ []) :
    ∀ j, j < npArgmax xs → xs.getD j 0 < xs.getD (npArgmax xs) 0 := by
  intro j hj
  have hlt := npArgmax_lt_length xs hne
  have hjlen : j < xs.length := lt_trans hj hlt
  have hfail := List.not_of_lt_findIdx (p := fun x => xs.all (fun y => decide (y ≤ x))) hj
  have hex : ∃ y ∈ xs, xs[j] < y := by
    by_contra hall
    push_neg at hall
    have htr : xs.all (fun y => decide (y ≤ xs[j])) = true :=
      List.all_eq_true.mpr fun y hy => decide_eq_true (hall y hy)
    rw [htr] at hfail
    exact Bool.noConfusion hfail
  obtain ⟨y, hy, hylt⟩ := hex
  rw [List.getD_eq_getElem _ _ hjlen, List.getD_eq_getElem _ _ hlt]
  calc xs[j] < y := hylt
    _ ≤ xs[npArgmax xs] := by
        have := npArgmax_is_max xs hne
        obtain ⟨k, hk, rfl⟩ := List.mem_iff_getElem.mp hy
        have := npArgmax_is_max xs hne k hk
        rwa [List.getD_eq_getElem _ _ hk, List.getD_eq_getElem _ _ hlt] at this

/-! ## Properties of `select` -/

theorem select_eq_map (K : List ℕ) (xs : List α) (d : α) (h : ∀ k ∈ K, k < xs.length) :
    select K xs = K.map (fun k => xs.getD k d) := by
  induction K with
  | nil => rfl
  | cons a t ih =>
      have ha : a < xs.length := h a (List.mem_cons_self a t)
      simp only [select, List.filterMap_cons, List.getElem?_eq_getElem ha, List.map_cons]
      rw [List.getD_eq_getElem _ _ ha]
      exact congrArg _ (ih fun k hk => h k (List.mem_cons_of_mem a hk))

theorem select_length (K : List ℕ) (xs : List α) (h : ∀ k ∈ K, k < xs.length) :
    (select K xs).length = K.length := by
  induction K with
  | nil => rfl
  | cons a t ih =>
      have ha : a < xs.length := h a (List.mem_cons_self a t)
      have ht := ih fun k hk => h k (List.mem_cons_of_mem a hk)
      simp only [select, List.filterMap_cons, List.getElem?_eq_getElem ha] at ht ⊢
      simp [ht]

/-! ## Properties of the survivor predicate of duplicate-recall suppression -/

/-- Propositional form of `keptB`. -/
def keptP (rs ps : List ℚ) (i : ℕ) : Prop :=
  ∀ j, j < rs.length → rs.getD j 0 = rs.getD i 0 → j ≠ i →
    ps.getD j 0 < ps.getD i 0 ∨ (ps.getD j 0 = ps.getD i 0 ∧ j < i)

theorem keptB_iff (rs ps : List ℚ) (i : ℕ) : keptB rs ps i = true ↔ keptP rs ps i := by
  simp only [keptB, keptP, List.all_eq_true, List.mem_range, Bool.or_eq_true,
    Bool.and_eq_true, decide_eq_true_eq]
  constructor
  · intro h j hj h1 h2
    have := h j hj
    tauto
  · intro h j hj
    by_cases h1 : rs.getD j 0 = rs.getD i 0
    · by_cases h2 : j = i
      · tauto
      · have := h j hj h1 h2
        tauto
    · tauto

theorem mem_keptIdxs (rs ps : List ℚ) (k : ℕ) :
    k ∈ keptIdxs rs ps ↔ k < rs.length ∧ keptP rs ps k := by
  simp [keptIdxs, List.mem_filter, List.mem_range, keptB_iff]

/-- Every equal-recall group has a survivor: its lexicographically largest
member under the key (precision, index). -/
theorem kept_exists (rs ps : List ℚ) (i : ℕ) (hi : i < rs.length) :
    ∃ k, k < rs.length ∧ keptP rs ps k ∧ rs.getD k 0 = rs.getD i 0 := by
  classical
  set G : Finset ℕ :=
    (Finset.range rs.length).filter (fun j => rs.getD j 0 = rs.getD i 0) with hG
  have hiG : i ∈ G := by simp [hG, hi]
  obtain ⟨b, hbG, hb⟩ := Finset.exists_max_image G (fun j => ps.getD j 0) ⟨i, hiG⟩
  set H : Finset ℕ := G.filter (fun j => ps.getD j 0 = ps.getD b 0) with hH
  have hbH : b ∈ H := by simp [hH, hbG]
  have hHne : H.Nonempty := ⟨b, hbH⟩
  have hmaxH := Finset.max'_mem H hHne
  have hmax_facts : (H.max' hHne < rs.length ∧ rs.getD (H.max' hHne) 0 = rs.getD i 0) ∧
      ps.getD (H.max' hHne) 0 = ps.getD b 0 := by
    have := hmaxH
    simp only [hH, hG, Finset.mem_filter, Finset.mem_range] at this
    exact this
  refine ⟨H.max' hHne, hmax_facts.1.1, ?_, hmax_facts.1.2⟩
  intro j hj hrs hne
  have hjG : j ∈ G := by
    simp only [hG, Finset.mem_filter, Finset.mem_range]
    exact ⟨hj, hrs.trans hmax_facts.1.2⟩
  have hle : ps.getD j 0 ≤ ps.getD b 0 := hb j hjG
  rcases lt_or_eq_of_le hle with h1 | h1
  · left; rwa [hmax_facts.2]
  · right
    refine ⟨by rw [hmax_facts.2, h1], ?_⟩
    have hjH : j ∈ H := by simp only [hH, Finset.mem_filter]; exact ⟨hjG, h1⟩
    exact lt_of_le_of_ne (Finset.le_max' H j hjH) hne

/-! ## Structure of the raw curve -/

theorem rawRecalls_length (gt : List Bool) (pred : List ℚ) :
    (rawRecalls gt pred).length = (sliceK gt pred).length + 1 := by
  simp [rawRecalls]

theorem rawPrecisions_length (gt : List Bool) (pred : List ℚ) :
    (rawPrecisions gt pred).length = (sliceK gt pred).length + 1 := by
  simp [rawPrecisions]

theorem rawThresholds_length (gt : List Bool) (pred : List ℚ) :
    (rawThresholds gt pred).length = (sliceK gt pred).length + 1 := by
  simp [rawThresholds]

theorem rawRecalls_getD_lt (gt : List Bool) (pred : List ℚ) {a : ℕ}
    (ha : a < (sliceK gt pred).length) :
    (rawRecalls gt pred).getD a 0 =
      (tpsAt gt pred ((sliceK gt pred).getD a 0) : ℚ) / (totalPos gt pred : ℚ) := by
  rw [rawRecalls, List.getD_append _ _ _ _ (by simpa using ha),
    List.getD_eq_getElem _ _ (by simpa using ha), List.getElem_map,
    List.getD_eq_getElem _ _ ha]

theorem rawPrecisions_getD_lt (gt : List Bool) (pred : List ℚ) {a : ℕ}
    (ha : a < (sliceK gt pred).length) :
    (rawPrecisions gt pred).getD a 0 =
      (tpsAt gt pred ((sliceK gt pred).getD a 0) : ℚ) /
        (((sliceK gt pred).getD a 0 : ℚ) + 1) := by
  rw [rawPrecisions, List.getD_append _ _ _ _ (by simpa using ha),
    List.getD_eq_getElem _ _ (by simpa using ha), List.getElem_map,
    List.getD_eq_getElem _ _ ha]

theorem rawRecalls_getD_last (gt : List Bool) (pred : List ℚ) :
    (rawRecalls gt pred).getD (sliceK gt pred).length 0 = 0 := by
  rw [rawRecalls, List.getD_append_right _ _ _ _ (by simp)]
  simp

theorem rawPrecisions_getD_last (gt : List Bool) (pred : List ℚ) :
    (rawPrecisions gt pred).getD (sliceK gt pred).length 0 = 1 := by
  rw [rawPrecisions, List.getD_append_right _ _ _ _ (by simp)]
  simp

theorem tpsAt_mono (gt : List Bool) (pred : List ℚ) {k k' : ℕ} (h : k ≤ k') :
    tpsAt gt pred k ≤ tpsAt gt pred k' :=
  ((List.take_prefix_take_left _ (by omega)).sublist).count_le true

theorem tpsAt_le_total (gt : List Bool) (pred : List ℚ) (k : ℕ) :
    tpsAt gt pred k ≤ totalPos gt pred :=
  (List.take_sublist _ _).count_le true

theorem tpsAt_le_succ (gt : List Bool) (pred : List ℚ) (k : ℕ) :
    tpsAt gt pred k ≤ k + 1 := by
  refine le_trans (List.count_le_length _ _) ?_
  rw [List.length_take]
  omega

theorem thresholdIdxs_pairwise (gt : List Bool) (pred : List ℚ) :
    List.Pairwise (· < ·) (thresholdIdxs gt pred) :=
  List.Pairwise.sublist (List.filter_sublist _) (List.pairwise_lt_range _)

theorem sliceK_pairwise (gt : List Bool) (pred : List ℚ) :
    List.Pairwise (fun a b : ℕ => b < a) (sliceK gt pred) := by
  rw [sliceK, List.pairwise_reverse]
  exact List.Pairwise.sublist (List.take_sublist _ _) (thresholdIdxs_pairwise gt pred)

/-- No threshold point of the raw curve can have precision 1 together with
recall 0: precision 1 forces a positive `tps`, hence a positive recall. -/
theorem rawCurve_no_perfect_zero (gt : List Bool) (pred : List ℚ) {a : ℕ}
    (ha : a < (sliceK gt pred).length)
    (hr : (rawRecalls gt pred).getD a 0 = 0) :
    (rawPrecisions gt pred).getD a 0 ≠ 1 := by
  intro hp
  rw [rawPrecisions_getD_lt gt pred ha] at hp
  rw [rawRecalls_getD_lt gt pred ha] at hr
  set k := (sliceK gt pred).getD a 0 with hk
  have hk1 : ((k : ℚ) + 1) ≠ 0 := by positivity
  have htps : (tpsAt gt pred k : ℚ) = (k : ℚ) + 1 := by
    field_simp at hp
    linarith
  have htpsN : tpsAt gt pred k = k + 1 := by exact_mod_cast htps
  have h2 : 1 ≤ totalPos gt pred := le_trans (by omega) (tpsAt_le_total gt pred k)
  have htot : ((totalPos gt pred : ℚ)) ≠ 0 := by
    have : (0 : ℚ) < (totalPos gt pred : ℚ) := by exact_mod_cast h2
    exact ne_of_gt this
  have : (tpsAt gt pred k : ℚ) = 0 := by
    rcases div_eq_zero_iff.mp hr with h | h
    · exact h
    · exact absurd h htot
  have : tpsAt gt pred k = 0 := by exact_mod_cast this
  omega

/-- In the raw curve no two distinct points can share both their recall and
the maximal precision of their equal-recall group: whenever two distinct
points agree on recall and precision, a third point of the same group has
strictly larger precision. -/
theorem rawCurve_unique_max (gt : List Bool) (pred : List ℚ) {i j : ℕ}
    (hi : i < (rawRecalls gt pred).length) (hj : j < (rawRecalls gt pred).length)
    (hne : i ≠ j)
    (hrs : (rawRecalls gt pred).getD i 0 = (rawRecalls gt pred).getD j 0)
    (hps : (rawPrecisions gt pred).getD i 0 = (rawPrecisions gt pred).getD j 0) :
    ∃ w, w < (rawRecalls gt pred).length ∧
      (rawRecalls gt pred).getD w 0 = (rawRecalls gt pred).getD i 0 ∧
      (rawPrecisions gt pred).getD i 0 < (rawPrecisions gt pred).getD w 0 := by
  rw [rawRecalls_length] at hi hj
  set m := (sliceK gt pred).length with hm
  by_cases hi' : i < m <;> by_cases hj' : j < m
  · -- both are genuine threshold points
    by_cases htot : totalPos gt pred = 0
    · -- all-negative ground truth: every genuine point has precision 0
      have h0 : tpsAt gt pred ((sliceK gt pred).getD i 0) = 0 := by
        have := tpsAt_le_total gt pred ((sliceK gt pred).getD i 0)
        omega
      refine ⟨m, by rw [rawRecalls_length]; omega, ?_, ?_⟩
      · rw [rawRecalls_getD_last, rawRecalls_getD_lt gt pred hi', h0]
        norm_num
      · rw [rawPrecisions_getD_last, rawPrecisions_getD_lt gt pred hi', h0]
        norm_num
    · -- positive ground truth: equal recalls force equal tps
      have htotQ : ((totalPos gt pred : ℚ)) ≠ 0 := by
        have : 0 < totalPos gt pred := Nat.pos_of_ne_zero htot
        exact ne_of_gt (by exact_mod_cast this)
      rw [rawRecalls_getD_lt gt pred hi', rawRecalls_getD_lt gt pred hj'] at hrs
      have htpseq : tpsAt gt pred ((sliceK gt pred).getD i 0) =
          tpsAt gt pred ((sliceK gt pred).getD j 0) := by
        have := (div_eq_div_iff htotQ htotQ).mp hrs
        have := mul_right_cancel₀ htotQ this
        exact_mod_cast this
      by_cases htps : tpsAt gt pred ((sliceK gt pred).getD i 0) = 0
      · -- a spurious (0, 0) point; the appended (0, 1) endpoint beats it
        refine ⟨m, by rw [rawRecalls_length]; omega, ?_, ?_⟩
        · rw [rawRecalls_getD_last, rawRecalls_getD_lt gt pred hi', htps]
          norm_num
        · rw [rawPrecisions_getD_last, rawPrecisions_getD_lt gt pred hi', htps]
          norm_num
      · -- positive tps: equal precisions force equal positions, contradiction
        exfalso
        rw [rawPrecisions_getD_lt gt pred hi', rawPrecisions_getD_lt gt pred hj',
          ← htpseq] at hps
        have htpsQ : ((tpsAt gt pred ((sliceK gt pred).getD i 0) : ℚ)) ≠ 0 := by
          exact_mod_cast htps
        have hki : (((sliceK gt pred).getD i 0 : ℚ) + 1) ≠ 0 := by positivity
        have hkj : (((sliceK gt pred).getD j 0 : ℚ) + 1) ≠ 0 := by positivity
        have hcross := (div_eq_div_iff hki hkj).mp hps
        have hkQ : (((sliceK gt pred).getD i 0 : ℚ)) = ((sliceK gt pred).getD j 0 : ℚ) := by
          have := mul_left_cancel₀ htpsQ hcross
          linarith
        have hkeq : (sliceK gt pred).getD i 0 = (sliceK gt pred).getD j 0 := by
          exact_mod_cast hkQ
        have hpw := List.pairwise_iff_getElem.mp (sliceK_pairwise gt pred)
        rw [List.getD_eq_getElem _ _ hi', List.getD_eq_getElem _ _ hj'] at hkeq
        rcases lt_or_gt_of_ne hne with hlt | hlt
        · have := hpw i j hi' hj' hlt
          omega
        · have := hpw j i hj' hi' hlt
          omega
  · -- j is the appended endpoint: precision 1 and recall 0 at i, impossible
    exfalso
    have hjm : j = m := by omega
    rw [hjm, rawPrecisions_getD_last] at hps
    rw [hjm, rawRecalls_getD_last] at hrs
    exact rawCurve_no_perfect_zero gt pred hi' hrs hps
  · -- i is the appended endpoint: same contradiction at j
    exfalso
    have him : i = m := by omega
    rw [him, rawPrecisions_getD_last] at hps
    rw [him, rawRecalls_getD_last] at hrs
    exact rawCurve_no_perfect_zero gt pred hj' hrs.symm hps.symm
  · exact absurd (by omega : i = j) hne

/-- The raw recall sequence is non-increasing: the reverse slice enumerates
the threshold points from full recall downwards and the appended endpoint has
recall 0. -/
theorem rawRecalls_antitone (gt : List Bool) (pred : List ℚ) :
    List.Pairwise (fun x y : ℚ => y ≤ x) (rawRecalls gt pred) := by
  rw [rawRecalls, List.pairwise_append]
  refine ⟨?_, by simp, ?_⟩
  · rw [List.pairwise_map]
    refine List.Pairwise.imp ?_ (sliceK_pairwise gt pred)
    intro a b hab
    by_cases htot : totalPos gt pred = 0
    · simp [htot]
    · have h0 : (0 : ℚ) < (totalPos gt pred : ℚ) := by
        exact_mod_cast Nat.pos_of_ne_zero htot
      have := tpsAt_mono gt pred (le_of_lt hab)
      exact div_le_div_of_nonneg_right (by exact_mod_cast this) (le_of_lt h0)
  · intro a ha b hb
    simp only [List.mem_singleton] at hb
    subst hb
    simp only [List.mem_map] at ha
    obtain ⟨k, _, rfl⟩ := ha
    positivity

theorem keptIdxs_pairwise (rs ps : List ℚ) :
    List.Pairwise (· < ·) (keptIdxs rs ps) :=
  List.Pairwise.sublist (List.filter_sublist _) (List.pairwise_lt_range _)

/-- The survivor of an equal-recall group is unique. -/
theorem kept_unique (rs ps : List ℚ) {a b : ℕ}
    (ha : a < rs.length) (hb : b < rs.length)
    (hka : keptP rs ps a) (hkb : keptP rs ps b)
    (hrs : rs.getD a 0 = rs.getD b 0) : a = b := by
  by_contra hne
  have h1 := hka b hb hrs.symm (Ne.symm hne)
  have h2 := hkb a ha hrs hne
  rcases h1 with h1 | ⟨h1e, h1l⟩ <;> rcases h2 with h2 | ⟨h2e, h2l⟩
  · exact absurd (lt_trans h1 h2) (lt_irrefl _)
  · rw [h2e] at h1
    exact absurd h1 (lt_irrefl _)
  · rw [h1e] at h2
    exact absurd h2 (lt_irrefl _)
  · exact absurd (lt_trans h1l h2l) (lt_irrefl _)

/-! ## The deduplicated curve -/

theorem keptIdxs_bound (rs ps : List ℚ) :
    ∀ k ∈ keptIdxs rs ps, k < rs.length :=
  fun k hk => ((mem_keptIdxs rs ps k).mp hk).1

/-- After duplicate-recall suppression the recall sequence is strictly
decreasing. -/
theorem dedupRecalls_strict_anti (gt : List Bool) (pred : List ℚ) :
    List.Pairwise (fun x y : ℚ => y < x) (dedupRecalls gt pred) := by
  set rs := rawRecalls gt pred with hrsdef
  set ps := rawPrecisions gt pred with hpsdef
  set K := keptIdxs rs ps with hKdef
  rw [dedupRecalls, ← hrsdef, ← hpsdef, ← hKdef,
    select_eq_map K rs 0 (keptIdxs_bound rs ps), List.pairwise_map,
    List.pairwise_iff_getElem]
  intro u v hu hv huv
  have hKpw := List.pairwise_iff_getElem.mp (keptIdxs_pairwise rs ps)
  have hkuv : K[u] < K[v] := hKpw u v hu hv huv
  have hu' := (mem_keptIdxs rs ps _).mp (List.getElem_mem hu)
  have hv' := (mem_keptIdxs rs ps _).mp (List.getElem_mem hv)
  have hanti := List.pairwise_iff_getElem.mp (rawRecalls_antitone gt pred)
  have hle : rs.getD K[v] 0 ≤ rs.getD K[u] 0 := by
    rw [List.getD_eq_getElem _ _ hu'.1, List.getD_eq_getElem _ _ hv'.1]
    exact hanti _ _ hu'.1 hv'.1 hkuv
  rcases lt_or_eq_of_le hle with h | h
  · exact h
  · exfalso
    have := kept_unique rs ps hu'.1 hv'.1 hu'.2 hv'.2 h.symm
    omega

/-- Each recall value of the raw curve survives exactly once. -/
theorem dedupRecalls_count_one (gt : List Bool) (pred : List ℚ) :
    ∀ v ∈ rawRecalls gt pred, (dedupRecalls gt pred).count v = 1 := by
  intro v hv
  have hnodup : (dedupRecalls gt pred).Nodup :=
    (dedupRecalls_strict_anti gt pred).imp fun h => ne_of_gt h
  obtain ⟨i, hi, rfl⟩ := List.mem_iff_getElem.mp hv
  obtain ⟨k, hk, hkept, hkv⟩ := kept_exists (rawRecalls gt pred) (rawPrecisions gt pred) i hi
  have hmem : (rawRecalls gt pred)[i] ∈ dedupRecalls gt pred := by
    rw [dedupRecalls, select_eq_map _ _ 0 (keptIdxs_bound _ _)]
    refine List.mem_map.mpr ⟨k, (mem_keptIdxs _ _ _).mpr ⟨hk, hkept⟩, ?_⟩
    rw [hkv, List.getD_eq_getElem _ _ hi]
  exact List.count_eq_one_of_mem hnodup hmem

/-- Every survivor carries the maximal precision of its equal-recall group. -/
theorem dedup_max_precision (gt : List Bool) (pred : List ℚ) :
    ∀ k ∈ keptIdxs (rawRecalls gt pred) (rawPrecisions gt pred),
      ∀ j, j < (rawRecalls gt pred).length →
        (rawRecalls gt pred).getD j 0 = (rawRecalls gt pred).getD k 0 →
        (rawPrecisions gt pred).getD j 0 ≤ (rawPrecisions gt pred).getD k 0 := by
  intro k hk j hj hjr
  obtain ⟨hklt, hkept⟩ := (mem_keptIdxs _ _ _).mp hk
  rcases eq_or_ne j k with rfl | hne
  · exact le_refl _
  · rcases hkept j hj hjr hne with h | ⟨h, _⟩
    · exact le_of_lt h
    · exact le_of_eq h

/-- The survivor is the first point of its group attaining the group's maximal
precision: no other point ties with it on both recall and precision. -/
theorem dedup_first_tie (gt : List Bool) (pred : List ℚ) :
    ∀ k ∈ keptIdxs (rawRecalls gt pred) (rawPrecisions gt pred),
      ∀ j, j < (rawRecalls gt pred).length →
        (rawRecalls gt pred).getD j 0 = (rawRecalls gt pred).getD k 0 →
        (rawPrecisions gt pred).getD j 0 = (rawPrecisions gt pred).getD k 0 →
        k ≤ j := by
  intro k hk j hj hjr hjp
  obtain ⟨hklt, hkept⟩ := (mem_keptIdxs _ _ _).mp hk
  rcases eq_or_ne j k with rfl | hne
  · exact le_refl _
  · exfalso
    obtain ⟨w, hw, hwr, hwp⟩ := rawCurve_unique_max gt pred hj hklt hne hjr hjp
    rcases eq_or_ne w k with rfl | hwk
    · rw [hjp] at hwp
      exact absurd hwp (lt_irrefl _)
    · rcases hkept w hw (hwr.trans hjr) hwk with h | ⟨h, _⟩
      · rw [hjp] at hwp
        exact absurd (lt_trans hwp h) (lt_irrefl _)
      · rw [hjp, h] at hwp
        exact absurd hwp (lt_irrefl _)

/-! ## Claim theorems: duplicate-recall suppression -/

/-- Claim C1: for every input triple, after the raw precision-recall curve is
built (from the repaired probabilistic prediction), every group of curve
points sharing a recall value is reduced to exactly one point; the survivor
carries the maximal precision of its group; the survivor is the
first-occurring point among those attaining that recall and that maximal
precision (through this pipeline the maximum is attained uniquely, so the
survivor is both the first and the only such point); and the deletion is
applied with the one shared index set to the recall, precision and threshold
sequences. -/
theorem claim1_duplicate_recall_suppression (pred : List ℚ) (bin : List Bool)
    (gt : List Bool) (hlen : gt.length = pred.length) (hn : 0 < pred.length) :
    (∀ v ∈ rawRecalls gt (repairPred pred),
        (dedupRecalls gt (repairPred pred)).count v = 1) ∧
    (∀ k ∈ keptIdxs (rawRecalls gt (repairPred pred)) (rawPrecisions gt (repairPred pred)),
        ∀ j, j < (rawRecalls gt (repairPred pred)).length →
          (rawRecalls gt (repairPred pred)).getD j 0 =
            (rawRecalls gt (repairPred pred)).getD k 0 →
          (rawPrecisions gt (repairPred pred)).getD j 0 ≤
            (rawPrecisions gt (repairPred pred)).getD k 0) ∧
    (∀ k ∈ keptIdxs (rawRecalls gt (repairPred pred)) (rawPrecisions gt (repairPred pred)),
        ∀ j, j < (rawRecalls gt (repairPred pred)).length →
          (rawRecalls gt (repairPred pred)).getD j 0 =
            (rawRecalls gt (repairPred pred)).getD k 0 →
          (rawPrecisions gt (repairPred pred)).getD j 0 =
            (rawPrecisions gt (repairPred pred)).getD k 0 →
          k ≤ j) ∧
    dedupRecalls gt (repairPred pred) =
      select (keptIdxs (rawRecalls gt (repairPred pred)) (rawPrecisions gt (repairPred pred)))
        (rawRecalls gt (repairPred pred)) ∧
    dedupPrecisions gt (repairPred pred) =
      select (keptIdxs (rawRecalls gt (repairPred pred)) (rawPrecisions gt (repairPred pred)))
        (rawPrecisions gt (repairPred pred)) ∧
    dedupThresholds gt (repairPred pred) =
      select (keptIdxs (rawRecalls gt (repairPred pred)) (rawPrecisions gt (repairPred pred)))
        (rawThresholds gt (repairPred pred)) :=
  ⟨dedupRecalls_count_one _ _, dedup_max_precision _ _, dedup_first_tie _ _, rfl, rfl, rfl⟩

/-- Witness for C1 at the concrete triple of spec scenario 1. -/
theorem claim1_duplicate_recall_suppression_witness :
    ([true, true, false, false] : List Bool).length =
      ([9/10, 8/10, 1/10, 2/10] : List ℚ).length ∧
    0 < ([9/10, 8/10, 1/10, 2/10] : List ℚ).length ∧
    (∀ v ∈ rawRecalls [true, true, false, false] (repairPred [9/10, 8/10, 1/10, 2/10]),
        (dedupRecalls [true, true, false, false] (repairPred [9/10, 8/10, 1/10, 2/10])).count v
          = 1) :=
  ⟨by decide, by decide,
    (claim1_duplicate_recall_suppression [9/10, 8/10, 1/10, 2/10] [true, true, false, false]
      [true, true, false, false] (by decide) (by decide)).1⟩

/-- Claim C2 as stated is false: on ground truth `[1,1,0,0]` and prediction
`[0.9,0.8,0.1,0.2]` the deduplicated recall sequence is `[1, 1/2, 0]`, which
is not strictly increasing. -/
theorem claim2_counterexample :
    dedupRecalls [true, true, false, false] (repairPred [9/10, 8/10, 1/10, 2/10]) =
      [1, 1/2, 0] ∧
    ¬ List.Pairwise (fun x y : ℚ => x < y)
        (dedupRecalls [true, true, false, false] (repairPred [9/10, 8/10, 1/10, 2/10])) := by
  have h : dedupRecalls [true, true, false, false] (repairPred [9/10, 8/10, 1/10, 2/10]) =
      [1, 1/2, 0] := by
    norm_num [dedupRecalls, select, keptIdxs, keptB, rawRecalls, rawPrecisions, sliceK, lastInd,
      thresholdIdxs, scoresDesc, labelsDesc, descPairs, tpsAt, totalPos, repairPred,
      List.insertionSort, List.orderedInsert, List.range, List.range.loop, List.filter,
      List.findIdx, List.findIdx.go, List.all, List.count, List.countP, List.countP.go,
      List.take, List.zip, List.zipWith, List.filterMap, List.getD]
  refine ⟨h, ?_⟩
  rw [h]
  intro hp
  have h1 := (List.pairwise_cons.mp hp).1 (1/2) (by simp)
  norm_num at h1

/-- Claim C2 amended: after the duplicate-recall suppression step of `evaluate`
the recall sequence of the per-sample curve is strictly *decreasing* (in
particular no two elements are equal); the spec's direction is reversed,
since the curve-construction routine emits recall in decreasing order. -/
theorem claim2_amended_strictly_decreasing (pred : List ℚ) (bin : List Bool)
    (gt : List Bool) (hlen : gt.length = pred.length) (hn : 0 < pred.length) :
    List.Pairwise (fun x y : ℚ => y < x) (dedupRecalls gt (repairPred pred)) :=
  dedupRecalls_strict_anti gt (repairPred pred)

/-- Witness for the amended C2 at the concrete triple of spec scenario 1. -/
theorem claim2_amended_strictly_decreasing_witness :
    ([true, true, false, false] : List Bool).length =
      ([9/10, 8/10, 1/10, 2/10] : List ℚ).length ∧
    0 < ([9/10, 8/10, 1/10, 2/10] : List ℚ).length ∧
    List.Pairwise (fun x y : ℚ => y < x)
      (dedupRecalls [true, true, false, false] (repairPred [9/10, 8/10, 1/10, 2/10])) :=
  ⟨by decide, by decide,
    claim2_amended_strictly_decreasing [9/10, 8/10, 1/10, 2/10] [true, true, false, false]
      [true, true, false, false] (by decide) (by decide)⟩

/-! ## Claim theorems: best-F1 selection -/

theorem Accumulator.start_update_mean (v : ℚ) : (Accumulator.start.update v).mean = v := by
  simp [Accumulator.update, Accumulator.start]

theorem keptIdxs_bound_ps (gt : List Bool) (pred : List ℚ) :
    ∀ k ∈ keptIdxs (rawRecalls gt pred) (rawPrecisions gt pred),
      k < (rawPrecisions gt pred).length := by
  intro k hk
  have h := keptIdxs_bound _ _ k hk
  rw [rawRecalls_length] at h
  rw [rawPrecisions_length]
  omega

theorem keptIdxs_bound_ts (gt : List Bool) (pred : List ℚ) :
    ∀ k ∈ keptIdxs (rawRecalls gt pred) (rawPrecisions gt pred),
      k < (rawThresholds gt pred).length := by
  intro k hk
  have h := keptIdxs_bound _ _ k hk
  rw [rawRecalls_length] at h
  rw [rawThresholds_length]
  omega

theorem dedupPrecisions_length_eq (gt : List Bool) (pred : List ℚ) :
    (dedupPrecisions gt pred).length = (dedupRecalls gt pred).length := by
  rw [dedupPrecisions, dedupRecalls, select_length _ _ (keptIdxs_bound_ps gt pred),
    select_length _ _ (keptIdxs_bound _ _)]

theorem dedupThresholds_length_eq (gt : List Bool) (pred : List ℚ) :
    (dedupThresholds gt pred).length = (dedupRecalls gt pred).length := by
  rw [dedupThresholds, dedupRecalls, select_length _ _ (keptIdxs_bound_ts gt pred),
    select_length _ _ (keptIdxs_bound _ _)]

theorem dedupRecalls_ne_nil (gt : List Bool) (pred : List ℚ) :
    dedupRecalls gt pred ≠ [] := by
  obtain ⟨k, hk, hkept, _⟩ := kept_exists (rawRecalls gt pred) (rawPrecisions gt pred) 0
    (by rw [rawRecalls_length]; omega)
  have hmem : (rawRecalls gt pred).getD k 0 ∈ dedupRecalls gt pred := by
    rw [dedupRecalls, select_eq_map _ _ 0 (keptIdxs_bound _ _)]
    exact List.mem_map.mpr ⟨k, (mem_keptIdxs _ _ _).mpr ⟨hk, hkept⟩, rfl⟩
  exact List.ne_nil_of_mem hmem

theorem dedupF1s_length (gt : List Bool) (pred : List ℚ) :
    (dedupF1s gt pred).length = (dedupRecalls gt pred).length := by
  rw [dedupF1s, List.length_zipWith, dedupPrecisions_length_eq, min_self]

theorem dedupF1s_ne_nil (gt : List Bool) (pred : List ℚ) : dedupF1s gt pred ≠ [] := by
  intro h
  have h1 := dedupF1s_length gt pred
  rw [h, List.length_nil] at h1
  exact dedupRecalls_ne_nil gt pred (List.eq_nil_of_length_eq_zero h1.symm)

/-- Claim C3: F1 is computed elementwise over the deduplicated curve as
`2*precision*recall/(precision+recall)`; the selected index maximizes F1, ties
broken by first occurrence; the F1, precision and recall recorded into the
probabilistic evaluation record are those at the selected index. -/
theorem claim3_best_f1_selection (pred : List ℚ) (bin : List Bool) (gt : List Bool)
    (hlen : gt.length = pred.length) (hn : 0 < pred.length) :
    dedupF1s gt (repairPred pred) =
      List.zipWith f1Of (dedupPrecisions gt (repairPred pred))
        (dedupRecalls gt (repairPred pred)) ∧
    (evaluatePure pred bin gt).1.f1score.mean =
      (dedupF1s gt (repairPred pred)).getD (bestIdx gt (repairPred pred)) 0 ∧
    (evaluatePure pred bin gt).1.precision.mean =
      (dedupPrecisions gt (repairPred pred)).getD (bestIdx gt (repairPred pred)) 0 ∧
    (evaluatePure pred bin gt).1.«recall».mean =
      (dedupRecalls gt (repairPred pred)).getD (bestIdx gt (repairPred pred)) 0 ∧
    (∀ j, j < (dedupF1s gt (repairPred pred)).length →
      (dedupF1s gt (repairPred pred)).getD j 0 ≤
        (dedupF1s gt (repairPred pred)).getD (bestIdx gt (repairPred pred)) 0) ∧
    (∀ j, j < bestIdx gt (repairPred pred) →
      (dedupF1s gt (repairPred pred)).getD j 0 <
        (dedupF1s gt (repairPred pred)).getD (bestIdx gt (repairPred pred)) 0) := by
  have hne := dedupF1s_ne_nil gt (repairPred pred)
  refine ⟨rfl, ?_, ?_, ?_, npArgmax_is_max _ hne, npArgmax_first _ hne⟩ <;>
    · simp only [evaluatePure, evaluateBody, bestIdx]
      exact Accumulator.start_update_mean _

/-- Witness for C3 at the concrete triple of spec scenario 1. -/
theorem claim3_best_f1_selection_witness :
    ([true, true, false, false] : List Bool).length =
      ([9/10, 8/10, 1/10, 2/10] : List ℚ).length ∧
    0 < ([9/10, 8/10, 1/10, 2/10] : List ℚ).length ∧
    (∀ j, j < (dedupF1s [true, true, false, false]
        (repairPred [9/10, 8/10, 1/10, 2/10])).length →
      (dedupF1s [true, true, false, false]
          (repairPred [9/10, 8/10, 1/10, 2/10])).getD j 0 ≤
        (dedupF1s [true, true, false, false]
            (repairPred [9/10, 8/10, 1/10, 2/10])).getD
          (bestIdx [true, true, false, false] (repairPred [9/10, 8/10, 1/10, 2/10])) 0) :=
  ⟨by decide, by decide,
    (claim3_best_f1_selection [9/10, 8/10, 1/10, 2/10] [true, true, false, false]
      [true, true, false, false] (by decide) (by decide)).2.2.2.2.1⟩

/-! ## Claim theorems: frame effect and determinism -/

/-- Claim C4: the edge-case repair operates on local copies - if the
probabilistic prediction is all-zero the local variable is rebound to a copy
whose first element is `0.5` (and likewise a `true` first element for an
all-false binarized prediction), so the caller's three arrays are unchanged
when the call returns, and the outputs are those of the pure evaluation of
the caller's arrays. -/
theorem claim4_no_caller_mutation (h : Heap) (predId binId gtId : ℕ)
    (hp : predId < h.nextQ) (hb : binId < h.nextB) (hg : gtId < h.nextB) :
    (evaluateHeap h predId binId gtId).1.qArrs predId = h.qArrs predId ∧
    (evaluateHeap h predId binId gtId).1.bArrs binId = h.bArrs binId ∧
    (evaluateHeap h predId binId gtId).1.bArrs gtId = h.bArrs gtId ∧
    (evaluateHeap h predId binId gtId).2 =
      evaluatePure (h.qArrs predId) (h.bArrs binId) (h.bArrs gtId) := by
  have hpq : predId ≠ h.nextQ := by omega
  have hbb : binId ≠ h.nextB := by omega
  have hgb : gtId ≠ h.nextB := by omega
  simp only [evaluateHeap, evaluatePure, allocQ, writeQ, allocB, writeB, repairPred, repairBin]
  by_cases h1 : (h.qArrs predId).all (fun x => decide (x = 0)) <;>
    by_cases h2 : (h.bArrs binId).all (fun x => !x) <;>
      simp [h1, h2, hpq, hbb, hgb]

/-- Witness for C4 on a concrete two-array heap whose prediction array is
all-zero and whose binarized array is all-false. -/
theorem claim4_no_caller_mutation_witness :
    (0 : ℕ) < 1 ∧ (0 : ℕ) < 2 ∧ (1 : ℕ) < 2 ∧
    (evaluateHeap ⟨fun _ => [0, 0], fun _ => [false, false], 1, 2⟩ 0 0 1).1.qArrs 0 =
      (⟨fun _ => [0, 0], fun _ => [false, false], 1, 2⟩ : Heap).qArrs 0 ∧
    (evaluateHeap ⟨fun _ => [0, 0], fun _ => [false, false], 1, 2⟩ 0 0 1).2 =
      evaluatePure [0, 0] [false, false] [false, false] :=
  ⟨by decide, by decide, by decide,
    (claim4_no_caller_mutation ⟨fun _ => [0, 0], fun _ => [false, false], 1, 2⟩ 0 0 1
      (by decide) (by decide) (by decide)).1,
    (claim4_no_caller_mutation ⟨fun _ => [0, 0], fun _ => [false, false], 1, 2⟩ 0 0 1
      (by decide) (by decide) (by decide)).2.2.2⟩

/-- Claim C10: `evaluate` is deterministic - any two invocations on equal input
triples produce equal outputs (records, curve, markers).  The embedded
pipeline, including the argsort-based tie-break, is a function of the inputs
alone. -/
theorem claim10_deterministic (p₁ p₂ : List ℚ) (b₁ b₂ g₁ g₂ : List Bool)
    (hp : p₁ = p₂) (hb : b₁ = b₂) (hg : g₁ = g₂) :
    evaluatePure p₁ b₁ g₁ = evaluatePure p₂ b₂ g₂ := by
  subst hp
  subst hb
  subst hg
  rfl

/-- Witness for C10 at a concrete input triple. -/
theorem claim10_deterministic_witness :
    evaluatePure [1/2, 0] [true, false] [true, false] =
      evaluatePure [1/2, 0] [true, false] [true, false] :=
  claim10_deterministic [1/2, 0] [1/2, 0] [true, false] [true, false] [true, false]
    [true, false] rfl rfl rfl

/-! ## Properties of the `Plot` constructor -/

theorem mkPlot_threshold (rc pc : List ℚ) (th : Option (List ℚ)) (f1 : Option (List ℚ))
    (fp bp : Option (ℚ × ℚ)) : (mkPlot rc pc th f1 fp bp).threshold = th := by
  simp only [mkPlot]
  split_ifs <;> rfl

theorem mkPlot_f1 (rc pc : List ℚ) (th : Option (List ℚ)) (f1 : Option (List ℚ))
    (fp bp : Option (ℚ × ℚ)) :
    (mkPlot rc pc th f1 fp bp).f1 = f1.getD (List.zipWith f1Of pc rc) := by
  simp only [mkPlot]
  split_ifs <;> rfl

theorem mkPlot_two_le (rc pc : List ℚ) (th : Option (List ℚ)) (f1 : Option (List ℚ))
    (fp bp : Option (ℚ × ℚ)) : 2 ≤ (mkPlot rc pc th f1 fp bp).«recall».length := by
  simp only [mkPlot]
  split_ifs with h h2
  · simp
  · simp
  · simpa using Nat.not_lt.mp h

theorem mkPlot_len_eq (rc pc : List ℚ) (th : Option (List ℚ)) (f1 : Option (List ℚ))
    (fp bp : Option (ℚ × ℚ)) (hlen : rc.length = pc.length) :
    (mkPlot rc pc th f1 fp bp).«recall».length = (mkPlot rc pc th f1 fp bp).precision.length := by
  simp only [mkPlot]
  split_ifs <;> simp [hlen]

theorem mkPlot_of_two_le (rc pc : List ℚ) (th : Option (List ℚ)) (f1 : Option (List ℚ))
    (fp bp : Option (ℚ × ℚ)) (h : 2 ≤ rc.length) :
    (mkPlot rc pc th f1 fp bp).«recall» = rc ∧ (mkPlot rc pc th f1 fp bp).precision = pc := by
  simp only [mkPlot]
  rw [if_neg (by omega)]
  exact ⟨rfl, rfl⟩

/-! ## Inversion of a successful aggregation -/

theorem except_bind_ok {ε : Type u} {α β : Type v} (a : α) (f : α → Except ε β) :
    (Except.ok a : Except ε α).bind f = f a := rfl

theorem except_bind_error {ε : Type u} {α β : Type v} (e : ε) (f : α → Except ε β) :
    (Except.error e : Except ε α).bind f = Except.error e := rfl

/-- Full inversion of a successful `mean_and_std` call: the result is the
mean curve and the two dispersion curves `mean ∓ std` built from the
interpolated rows and the stacked binarized markers. -/
theorem mean_and_std_ok_shape (plots : List Plot) (interp : List ℚ)
    (res : Plot × Plot × Plot) (h : mean_and_std plots interp = Except.ok res) :
    ∃ rows binPts,
      plots.mapM (fun p => interpRow p interp) = Except.ok rows ∧
      plots.mapM (fun (p : Plot) => (match p.bin_point with
        | some pt => Except.ok pt
        | none => Except.error ("bin_point missing") : Except String (ℚ × ℚ))) =
          Except.ok binPts ∧
      res = (mkPlot interp (colMean rows interp.length plots.length) none none
          (some (interp.getD (npArgmax (List.zipWith fSpec
              (colMean rows interp.length plots.length) interp)) 0,
            (colMean rows interp.length plots.length).getD (npArgmax (List.zipWith fSpec
              (colMean rows interp.length plots.length) interp)) 0))
          (some ((binPts.map Prod.fst).sum / (plots.length : ℚ),
            (binPts.map Prod.snd).sum / (plots.length : ℚ))),
        mkPlot interp (List.zipWith (fun a b => a - b)
          (colMean rows interp.length plots.length)
          (colStd rows (colMean rows interp.length plots.length) interp.length
            plots.length)) none none none none,
        mkPlot interp (List.zipWith (fun a b => a + b)
          (colMean rows interp.length plots.length)
          (colStd rows (colMean rows interp.length plots.length) interp.length
            plots.length)) none none none none) := by
  rw [mean_and_std] at h
  cases hrows : plots.mapM (fun p => interpRow p interp) with
  | error e =>
      rw [hrows, except_bind_error] at h
      exact absurd h (by simp)
  | ok rows =>
      rw [hrows, except_bind_ok] at h
      by_cases hp0 : plots.length = 0
      · rw [if_pos hp0] at h
        exact absurd h (by simp)
      · rw [if_neg hp0] at h
        cases hbin : plots.mapM (fun (p : Plot) =>
            (match p.bin_point with
            | some pt => Except.ok pt
            | none => Except.error ("bin_point missing") : Except String (ℚ × ℚ))) with
        | error e =>
            rw [hbin, except_bind_error] at h
            exact absurd h (by simp)
        | ok binPts =>
            rw [hbin, except_bind_ok] at h
            by_cases hi0 : interp.length = 0
            · rw [if_pos hi0] at h
              exact absurd h (by simp)
            · rw [if_neg hi0] at h
              injection h with h
              exact ⟨rows, binPts, rfl, rfl, h.symm⟩

theorem colMean_length (rows : List (List ℚ)) (g n : ℕ) : (colMean rows g n).length = g := by
  simp [colMean]

theorem colStd_length (rows : List (List ℚ)) (mean : List ℚ) (g n : ℕ) :
    (colStd rows mean g n).length = g := by
  simp [colStd]

/-! ## Claim theorems: numeric-instability normalization (spec scenario 2) -/

set_option maxHeartbeats 3200000 in
/-- Claim C5 as stated is false in one clause: on ground truth `[0,0,0,0]` and
prediction `[0.1,0.2,0.3,0.4]` the emitted Curve's recall sequence is
`[0, 1]`, not all-zero - the constructor's degenerate-curve repair appends a
synthetic point with recall 1. -/
theorem claim5_counterexample :
    (evaluatePure [1/10, 2/10, 3/10, 4/10] [true, false, false, false]
        [false, false, false, false]).2.2.«recall» = [0, 1] ∧
    ¬ (∀ r ∈ (evaluatePure [1/10, 2/10, 3/10, 4/10] [true, false, false, false]
        [false, false, false, false]).2.2.«recall», r = 0) := by
  have h : (evaluatePure [1/10, 2/10, 3/10, 4/10] [true, false, false, false]
      [false, false, false, false]).2.2.«recall» = [0, 1] := by
    norm_num [evaluatePure, evaluateBody, repairPred, repairBin, mkPlot, f1Of, bestIdx,
      npArgmax, dedupF1s, dedupRecalls, dedupPrecisions, dedupThresholds, select, keptIdxs,
      keptB, rawRecalls, rawPrecisions, rawThresholds, sliceK, lastInd, thresholdIdxs,
      scoresDesc, labelsDesc, descPairs, tpsAt, totalPos, binPrecisionOf, binRecallOf, tpCount,
      Accumulator.update, Accumulator.start,
      List.insertionSort, List.orderedInsert, List.range, List.range.loop, List.filter,
      List.findIdx, List.findIdx.go, List.all, List.count, List.countP, List.countP.go,
      List.take, List.zip, List.zipWith, List.filterMap, List.getD]
  refine ⟨h, ?_⟩
  rw [h]
  intro hall
  have h1 := hall 1 (by simp)
  norm_num at h1

set_option maxHeartbeats 3200000 in
/-- Claim C5 amended: on scenario 2 no division by zero survives - every recall
of the raw curve is normalized to 0, the deduplicated curve is the single
point with recall 0 (and precision 1, the appended endpoint), every F1 value
is 0, the recorded recall and F1 metrics are 0, and the emitted Curve is the
repaired two-point curve recall `[0,1]` / precision `[1,0]` with F1 sequence
`[0]`; the evaluation is total (no exception) and, values being rational,
NaN-free. -/
theorem claim5_amended_normalization :
    rawRecalls [false, false, false, false] (repairPred [1/10, 2/10, 3/10, 4/10]) = [0, 0] ∧
    dedupRecalls [false, false, false, false] (repairPred [1/10, 2/10, 3/10, 4/10]) = [0] ∧
    dedupPrecisions [false, false, false, false] (repairPred [1/10, 2/10, 3/10, 4/10]) = [1] ∧
    dedupF1s [false, false, false, false] (repairPred [1/10, 2/10, 3/10, 4/10]) = [0] ∧
    (evaluatePure [1/10, 2/10, 3/10, 4/10] [true, false, false, false]
        [false, false, false, false]).1.«recall».mean = 0 ∧
    (evaluatePure [1/10, 2/10, 3/10, 4/10] [true, false, false, false]
        [false, false, false, false]).1.f1score.mean = 0 ∧
    (evaluatePure [1/10, 2/10, 3/10, 4/10] [true, false, false, false]
        [false, false, false, false]).2.2.f1 = [0] ∧
    (evaluatePure [1/10, 2/10, 3/10, 4/10] [true, false, false, false]
        [false, false, false, false]).2.2.«recall» = [0, 1] ∧
    (evaluatePure [1/10, 2/10, 3/10, 4/10] [true, false, false, false]
        [false, false, false, false]).2.2.precision = [1, 0] := by
  norm_num [evaluatePure, evaluateBody, repairPred, repairBin, mkPlot, f1Of, bestIdx,
    npArgmax, dedupF1s, dedupRecalls, dedupPrecisions, dedupThresholds, select, keptIdxs,
    keptB, rawRecalls, rawPrecisions, rawThresholds, sliceK, lastInd, thresholdIdxs,
    scoresDesc, labelsDesc, descPairs, tpsAt, totalPos, binPrecisionOf, binRecallOf, tpCount,
    Accumulator.update, Accumulator.start,
    List.insertionSort, List.orderedInsert, List.range, List.range.loop, List.filter,
    List.findIdx, List.findIdx.go, List.all, List.count, List.countP, List.countP.go,
    List.take, List.zip, List.zipWith, List.filterMap, List.getD]

/-! ## Claim theorems: the Curve quadruple invariant -/

set_option maxHeartbeats 3200000 in
/-- Claim C6 as stated is false: on scenario 2 the emitted Curve has recall (and
precision) of length 2 but an F1 sequence of length 1 - the constructor's
repair extends only recall and precision, so the quadruple is not
equal-length. -/
theorem claim6_counterexample :
    ((evaluatePure [1/10, 2/10, 3/10, 4/10] [true, false, false, false]
        [false, false, false, false]).2.2.«recall»).length = 2 ∧
    ((evaluatePure [1/10, 2/10, 3/10, 4/10] [true, false, false, false]
        [false, false, false, false]).2.2.f1).length = 1 ∧
    ((evaluatePure [1/10, 2/10, 3/10, 4/10] [true, false, false, false]
        [false, false, false, false]).2.2.«recall»).length ≠
      ((evaluatePure [1/10, 2/10, 3/10, 4/10] [true, false, false, false]
        [false, false, false, false]).2.2.f1).length := by
  norm_num [evaluatePure, evaluateBody, repairPred, repairBin, mkPlot, f1Of, bestIdx,
    npArgmax, dedupF1s, dedupRecalls, dedupPrecisions, dedupThresholds, select, keptIdxs,
    keptB, rawRecalls, rawPrecisions, rawThresholds, sliceK, lastInd, thresholdIdxs,
    scoresDesc, labelsDesc, descPairs, tpsAt, totalPos, binPrecisionOf, binRecallOf, tpCount,
    Accumulator.update, Accumulator.start,
    List.insertionSort, List.orderedInsert, List.range, List.range.loop, List.filter,
    List.findIdx, List.findIdx.go, List.all, List.count, List.countP, List.countP.go,
    List.take, List.zip, List.zipWith, List.filterMap, List.getD]

/-- Claim C6 amended: every Curve emitted by `evaluate` has recall and precision
of equal length at least 2, carries the deduplicated threshold and F1
sequences (of the common deduplicated length), and its four sequences all
share one length whenever the deduplicated curve already had at least two
points (i.e. whenever the repair did not fire); every Curve emitted by a
successful `aggregate` on a grid of length at least 2 has recall equal to the
grid and precision and F1 of the grid's length, with no threshold sequence. -/
theorem claim6_amended_curve_invariant :
    (∀ (pred : List ℚ) (bin : List Bool) (gt : List Bool),
      gt.length = pred.length → 0 < pred.length →
      (evaluatePure pred bin gt).2.2.«recall».length =
          (evaluatePure pred bin gt).2.2.precision.length ∧
        2 ≤ (evaluatePure pred bin gt).2.2.«recall».length ∧
        (evaluatePure pred bin gt).2.2.threshold =
          some (dedupThresholds gt (repairPred pred)) ∧
        (evaluatePure pred bin gt).2.2.f1 = dedupF1s gt (repairPred pred) ∧
        (dedupF1s gt (repairPred pred)).length =
          (dedupThresholds gt (repairPred pred)).length ∧
        (2 ≤ (dedupRecalls gt (repairPred pred)).length →
          (evaluatePure pred bin gt).2.2.«recall» = dedupRecalls gt (repairPred pred) ∧
          (evaluatePure pred bin gt).2.2.precision = dedupPrecisions gt (repairPred pred) ∧
          (evaluatePure pred bin gt).2.2.f1.length =
            (evaluatePure pred bin gt).2.2.«recall».length)) ∧
    (∀ (plots : List Plot) (interp : List ℚ) (res : Plot × Plot × Plot),
      mean_and_std plots interp = Except.ok res → 2 ≤ interp.length →
      (res.1.«recall» = interp ∧ res.1.precision.length = interp.length ∧
        res.1.f1.length = interp.length ∧ res.1.threshold = none) ∧
      (res.2.1.«recall» = interp ∧ res.2.1.precision.length = interp.length ∧
        res.2.1.f1.length = interp.length ∧ res.2.1.threshold = none) ∧
      (res.2.2.«recall» = interp ∧ res.2.2.precision.length = interp.length ∧
        res.2.2.f1.length = interp.length ∧ res.2.2.threshold = none)) := by
  constructor
  · intro pred bin gt hlen hn
    have hgoal : (evaluatePure pred bin gt).2.2 =
        mkPlot (dedupRecalls gt (repairPred pred)) (dedupPrecisions gt (repairPred pred))
          (some (dedupThresholds gt (repairPred pred))) (some (dedupF1s gt (repairPred pred)))
          (some ((dedupRecalls gt (repairPred pred)).getD (bestIdx gt (repairPred pred)) 0,
                 (dedupPrecisions gt (repairPred pred)).getD (bestIdx gt (repairPred pred)) 0))
          (some (binRecallOf gt (repairBin bin), binPrecisionOf gt (repairBin bin))) := by
      simp only [evaluatePure, evaluateBody, bestIdx]
    rw [hgoal]
    refine ⟨mkPlot_len_eq _ _ _ _ _ _ (dedupPrecisions_length_eq gt (repairPred pred)).symm,
      mkPlot_two_le _ _ _ _ _ _, mkPlot_threshold _ _ _ _ _ _, ?_, ?_, ?_⟩
    · rw [mkPlot_f1]
      rfl
    · rw [dedupF1s_length, dedupThresholds_length_eq]
    · intro h2
      obtain ⟨hr, hp⟩ := mkPlot_of_two_le (dedupRecalls gt (repairPred pred))
        (dedupPrecisions gt (repairPred pred)) _ _ _ _ h2
      refine ⟨hr, hp, ?_⟩
      rw [mkPlot_f1, hr]
      simpa using dedupF1s_length gt (repairPred pred)
  · intro plots interp res hok h2
    obtain ⟨rows, binPts, _, _, hres⟩ := mean_and_std_ok_shape plots interp res hok
    have hml := colMean_length rows interp.length plots.length
    have hsl := colStd_length rows (colMean rows interp.length plots.length) interp.length
      plots.length
    have hcomp : ∀ (v : List ℚ) (fpv bpv : Option (ℚ × ℚ)), v.length = interp.length →
        (mkPlot interp v none none fpv bpv).«recall» = interp ∧
        (mkPlot interp v none none fpv bpv).precision.length = interp.length ∧
        (mkPlot interp v none none fpv bpv).f1.length = interp.length ∧
        (mkPlot interp v none none fpv bpv).threshold = none := by
      intro v fpv bpv hv
      obtain ⟨hr, hp⟩ := mkPlot_of_two_le interp v none none fpv bpv h2
      refine ⟨hr, by rw [hp, hv], ?_, mkPlot_threshold _ _ _ _ _ _⟩
      rw [mkPlot_f1]
      simp [List.length_zipWith, hv]
    rw [hres]
    exact ⟨hcomp _ _ _ hml,
      hcomp _ none none (by rw [List.length_zipWith, hml, hsl, min_self]),
      hcomp _ none none (by rw [List.length_zipWith, hml, hsl, min_self])⟩

/-! ## Interpolation-domain lemmas -/

instance : IsTotal (ℚ × ℚ) (fun a b : ℚ × ℚ => a.1 ≤ b.1) :=
  ⟨fun a b => le_total a.1 b.1⟩

instance : IsTrans (ℚ × ℚ) (fun a b : ℚ × ℚ => a.1 ≤ b.1) :=
  ⟨fun _ _ _ hab hbc => le_trans hab hbc⟩

theorem sortNodes_sorted (xs ys : List ℚ) :
    List.Pairwise (fun a b : ℚ × ℚ => a.1 ≤ b.1) (sortNodes xs ys) :=
  List.sorted_insertionSort _ _

theorem sortNodes_perm (xs ys : List ℚ) : (sortNodes xs ys).Perm (xs.zip ys) :=
  List.perm_insertionSort _ _

theorem sortNodes_length (xs ys : List ℚ) :
    (sortNodes xs ys).length = min xs.length ys.length := by
  simp [sortNodes, List.length_insertionSort]

theorem exists_zip_pair {α β : Type} :
    ∀ (xs : List α) (ys : List β), xs.length ≤ ys.length →
      ∀ x ∈ xs, ∃ y, (x, y) ∈ xs.zip ys := by
  intro xs
  induction xs with
  | nil =>
      intro ys h x hx
      cases hx
  | cons a t ih =>
      intro ys h x hx
      cases ys with
      | nil => simp at h
      | cons b u =>
          rcases List.mem_cons.mp hx with rfl | hx'
          · exact ⟨b, List.mem_cons_self _ _⟩
          · obtain ⟨y, hy⟩ := ih u (by simpa using h) x hx'
            exact ⟨y, List.mem_cons_of_mem _ hy⟩

/-- The head of the sorted node list carries the minimum x-value. -/
theorem sortNodes_head_min (xs ys : List ℚ) (hlen : xs.length = ys.length)
    (hne : xs ≠ []) :
    ((sortNodes xs ys).headD (0, 0)).1 ∈ xs ∧
      ∀ x ∈ xs, ((sortNodes xs ys).headD (0, 0)).1 ≤ x := by
  have hlp : (sortNodes xs ys).length = xs.length := by
    rw [sortNodes_length, hlen, min_self]
  cases hnodes : sortNodes xs ys with
  | nil =>
      rw [hnodes] at hlp
      exact absurd (List.eq_nil_of_length_eq_zero hlp.symm) hne
  | cons hd tl =>
      have hsorted := sortNodes_sorted xs ys
      have hperm := sortNodes_perm xs ys
      rw [hnodes] at hsorted hperm
      constructor
      · have : hd ∈ xs.zip ys := hperm.mem_iff.mp (List.mem_cons_self _ _)
        simpa using (List.of_mem_zip this).1
      · intro x hx
        obtain ⟨y, hy⟩ := exists_zip_pair xs ys (by omega) x hx
        have hxym : (x, y) ∈ hd :: tl := hperm.mem_iff.mpr hy
        rcases List.mem_cons.mp hxym with heq | hmem
        · have hhd : hd.1 = x := by rw [← heq]
          simp [hhd]
        · simpa using (List.pairwise_cons.mp hsorted).1 (x, y) hmem

/-- The last entry of the sorted node list carries the maximum x-value. -/
theorem sortNodes_last_max (xs ys : List ℚ) (hlen : xs.length = ys.length)
    (hne : xs ≠ []) :
    ((sortNodes xs ys).getLastD (0, 0)).1 ∈ xs ∧
      ∀ x ∈ xs, x ≤ ((sortNodes xs ys).getLastD (0, 0)).1 := by
  have hlp : (sortNodes xs ys).length = xs.length := by
    rw [sortNodes_length, hlen, min_self]
  have hne' : sortNodes xs ys ≠ [] := by
    intro hcon
    rw [hcon] at hlp
    exact hne (List.eq_nil_of_length_eq_zero hlp.symm)
  have hlast : (sortNodes xs ys).getLastD (0, 0) = (sortNodes xs ys).getLast hne' := by
    rw [List.getLastD_eq_getLast?, List.getLast?_eq_getLast _ hne']
    rfl
  have hpos0 : 0 < (sortNodes xs ys).length := List.length_pos.mpr hne'
  have hlen1 : (sortNodes xs ys).length - 1 < (sortNodes xs ys).length := by omega
  have hidx : (sortNodes xs ys).getLast hne' =
      (sortNodes xs ys)[(sortNodes xs ys).length - 1] :=
    List.getLast_eq_getElem _ hne'
  constructor
  · rw [hlast]
    have : (sortNodes xs ys).getLast hne' ∈ sortNodes xs ys := List.getLast_mem hne'
    have hz : (sortNodes xs ys).getLast hne' ∈ xs.zip ys :=
      (sortNodes_perm xs ys).mem_iff.mp this
    simpa using (List.of_mem_zip (by simpa using hz)).1
  · intro x hx
    obtain ⟨y, hy⟩ := exists_zip_pair xs ys (by omega) x hx
    have hmem : (x, y) ∈ sortNodes xs ys := (sortNodes_perm xs ys).mem_iff.mpr hy
    obtain ⟨i, hi, hieq⟩ := List.mem_iff_getElem.mp hmem
    have hpw := List.pairwise_iff_getElem.mp (sortNodes_sorted xs ys)
    have hpos : 0 < (sortNodes xs ys).length := List.length_pos.mpr hne'
    have hle : (sortNodes xs ys)[i].1 ≤
        ((sortNodes xs ys)[(sortNodes xs ys).length - 1]).1 := by
      rcases lt_or_eq_of_le (by omega : i ≤ (sortNodes xs ys).length - 1) with hilt | hieq2
      · exact hpw i ((sortNodes xs ys).length - 1) hi (by omega) hilt
      · subst hieq2
        exact le_refl _
    have hx1 : (sortNodes xs ys)[i].1 = x := by rw [hieq]
    rw [hlast, hidx, ← hx1]
    exact hle

/-! ## mapM over `Except` -/

theorem mapM_ok_of_forall {ε α β : Type} (f : α → Except ε β) (l : List α)
    (h : ∀ a ∈ l, ∃ b, f a = Except.ok b) : ∃ bs, l.mapM f = Except.ok bs := by
  induction l with
  | nil => exact ⟨[], rfl⟩
  | cons a t ih =>
      obtain ⟨b, hb⟩ := h a (List.mem_cons_self a t)
      obtain ⟨bs, hbs⟩ := ih fun x hx => h x (List.mem_cons_of_mem a hx)
      refine ⟨b :: bs, ?_⟩
      rw [List.mapM_cons, hb, hbs]
      rfl

theorem forall_ok_of_mapM_ok {ε α β : Type} (f : α → Except ε β) :
    ∀ (l : List α) (bs : List β), l.mapM f = Except.ok bs →
      ∀ a ∈ l, ∃ b, f a = Except.ok b := by
  intro l
  induction l with
  | nil =>
      intro bs _ a ha
      cases ha
  | cons a t ih =>
      intro bs h x hx
      rw [List.mapM_cons] at h
      cases hfa : f a with
      | error e =>
          rw [hfa] at h
          exact absurd h (by simp [Bind.bind, Except.bind])
      | ok b =>
          rw [hfa] at h
          cases hts : t.mapM f with
          | error e =>
              rw [hts] at h
              exact absurd h (by simp [Bind.bind, Except.bind])
          | ok bs' =>
              rcases List.mem_cons.mp hx with rfl | hx'
              · exact ⟨b, hfa⟩
              · exact ih bs' hts x hx'

/-! ## Claim theorems: out-of-domain aggregation error -/

/-- A grid with a point strictly outside the observed recall range of the
curve makes `interp1d` fail. -/
theorem interpRow_error_of_out_of_range (p : Plot) (interp : List ℚ)
    (h2 : 2 ≤ p.«recall».length) (hlen : p.«recall».length = p.precision.length)
    (hbad : ∃ q ∈ interp, (∀ r ∈ p.«recall», q < r) ∨ (∀ r ∈ p.«recall», r < q)) :
    ∃ msg, interpRow p interp = Except.error msg := by
  have hne : p.«recall» ≠ [] := by
    intro hcon
    rw [hcon] at h2
    simp at h2
  rw [interpRow, if_neg (by omega)]
  rw [if_pos]
  · exact ⟨_, rfl⟩
  · obtain ⟨q, hq, hcase⟩ := hbad
    refine List.any_eq_true.mpr ⟨q, hq, ?_⟩
    rcases hcase with hlo | hhi
    · have hmem := (sortNodes_head_min p.«recall» p.precision hlen hne).1
      simp only [Bool.or_eq_true, decide_eq_true_eq]
      exact Or.inl (hlo _ hmem)
    · have hmem := (sortNodes_last_max p.«recall» p.precision hlen hne).1
      simp only [Bool.or_eq_true, decide_eq_true_eq]
      exact Or.inr (hhi _ hmem)

/-- A grid entirely inside the observed recall range interpolates without
error. -/
theorem interpRow_ok_of_in_range (p : Plot) (interp : List ℚ)
    (h2 : 2 ≤ p.«recall».length) (hlen : p.«recall».length = p.precision.length)
    (hdom : ∀ q ∈ interp, (∃ r ∈ p.«recall», r ≤ q) ∧ (∃ r ∈ p.«recall», q ≤ r)) :
    interpRow p interp =
      Except.ok (interp.map (interpEval (sortNodes p.«recall» p.precision))) := by
  have hne : p.«recall» ≠ [] := by
    intro hcon
    rw [hcon] at h2
    simp at h2
  rw [interpRow, if_neg (by omega), if_neg]
  intro hany
  obtain ⟨q, hq, hqbad⟩ := List.any_eq_true.mp hany
  simp only [Bool.or_eq_true, decide_eq_true_eq] at hqbad
  obtain ⟨⟨rlo, hrlo, hrloq⟩, ⟨rhi, hrhi, hrhiq⟩⟩ := hdom q hq
  rcases hqbad with hbad | hbad
  · have := (sortNodes_head_min p.«recall» p.precision hlen hne).2 rlo hrlo
    linarith
  · have := (sortNodes_last_max p.«recall» p.precision hlen hne).2 rhi hrhi
    linarith

/-- When every grid point lies inside every curve's recall range and the
inputs are otherwise well-formed, `mean_and_std` succeeds. -/
theorem mean_and_std_ok_of_in_range (plots : List Plot) (interp : List ℚ)
    (hv : ∀ p ∈ plots, 2 ≤ p.«recall».length ∧ p.«recall».length = p.precision.length)
    (hpne : plots ≠ []) (hine : interp ≠ [])
    (hbin : ∀ p ∈ plots, p.bin_point.isSome)
    (hdom : ∀ p ∈ plots, ∀ q ∈ interp,
      (∃ r ∈ p.«recall», r ≤ q) ∧ (∃ r ∈ p.«recall», q ≤ r)) :
    ∃ res, mean_and_std plots interp = Except.ok res := by
  obtain ⟨rows, hrows⟩ := mapM_ok_of_forall (fun pp => interpRow pp interp) plots
    (fun p hp => ⟨_, interpRow_ok_of_in_range p interp (hv p hp).1 (hv p hp).2 (hdom p hp)⟩)
  obtain ⟨binPts, hbinPts⟩ := mapM_ok_of_forall
    (fun (p : Plot) => (match p.bin_point with
      | some pt => Except.ok pt
      | none => Except.error ("bin_point missing") : Except String (ℚ × ℚ))) plots
    (fun p hp => by
      cases hsome : p.bin_point with
      | none =>
          have := hbin p hp
          rw [hsome] at this
          exact absurd this (by simp)
      | some pt => exact ⟨pt, by simp only [hsome]⟩)
  cases hfinal : mean_and_std plots interp with
  | ok res => exact ⟨res, rfl⟩
  | error e =>
      exfalso
      rw [mean_and_std, hrows, except_bind_ok,
        if_neg (by simpa using (List.length_pos.mpr hpne).ne'), hbinPts, except_bind_ok,
        if_neg (by simpa using (List.length_pos.mpr hine).ne')] at hfinal
      exact Except.noConfusion hfinal

/-- Claim C7: if some grid point lies strictly outside the observed recall range
of some input curve, the aggregation call fails with an error; conversely,
when every input curve's recall range covers every grid point (and the inputs
are otherwise well-formed: a nonempty curve collection with binarized marker
points, a nonempty grid), no error is raised. -/
theorem claim7_out_of_domain_error (plots : List Plot) (interp : List ℚ)
    (hv : ∀ p ∈ plots, 2 ≤ p.«recall».length ∧ p.«recall».length = p.precision.length) :
    ((∃ p ∈ plots, ∃ q ∈ interp,
        (∀ r ∈ p.«recall», q < r) ∨ (∀ r ∈ p.«recall», r < q)) →
      ∃ msg, mean_and_std plots interp = Except.error msg) ∧
    ((plots ≠ [] ∧ interp ≠ [] ∧ (∀ p ∈ plots, p.bin_point.isSome) ∧
      ∀ p ∈ plots, ∀ q ∈ interp,
        (∃ r ∈ p.«recall», r ≤ q) ∧ (∃ r ∈ p.«recall», q ≤ r)) →
      ∃ res, mean_and_std plots interp = Except.ok res) := by
  constructor
  · intro ⟨p, hp, hbad⟩
    cases hrows : plots.mapM (fun pp => interpRow pp interp) with
    | error e =>
        refine ⟨e, ?_⟩
        rw [mean_and_std, hrows, except_bind_error]
    | ok rows =>
        exfalso
        obtain ⟨row, hrow⟩ := forall_ok_of_mapM_ok _ plots rows hrows p hp
        obtain ⟨msg, hmsg⟩ :=
          interpRow_error_of_out_of_range p interp (hv p hp).1 (hv p hp).2 hbad
        rw [hmsg] at hrow
        exact Except.noConfusion hrow
  · intro ⟨hpne, hine, hbin, hdom⟩
    exact mean_and_std_ok_of_in_range plots interp hv hpne hine hbin hdom

/-! ## Interpolation at the nodes and aggregation of identical curves -/

theorem zip_pairwise_of_lt (xs ys : List ℚ)
    (hmono : List.Pairwise (fun a b : ℚ => a < b) xs) :
    List.Pairwise (fun a b : ℚ × ℚ => a.1 ≤ b.1) (xs.zip ys) := by
  rw [List.pairwise_iff_getElem] at hmono ⊢
  intro i j hi hj hij
  have hi' : i < xs.length := by
    rw [List.length_zip] at hi
    omega
  have hj' : j < xs.length := by
    rw [List.length_zip] at hj
    omega
  rw [List.getElem_zip, List.getElem_zip]
  exact le_of_lt (hmono i j hi' hj' hij)

theorem sortNodes_of_sorted (xs ys : List ℚ)
    (hmono : List.Pairwise (fun a b : ℚ => a < b) xs) :
    sortNodes xs ys = xs.zip ys :=
  List.Sorted.insertionSort_eq (zip_pairwise_of_lt xs ys hmono)

/-- Linear interpolation evaluated at an interpolation node returns the
node's own y-value (for strictly increasing node x-values). -/
theorem interpEval_node (xs ys : List ℚ) (hlen : xs.length = ys.length)
    (h2 : 2 ≤ xs.length) (hmono : List.Pairwise (fun a b : ℚ => a < b) xs)
    {i : ℕ} (hi : i < xs.length) :
    interpEval (xs.zip ys) (xs.getD i 0) = ys.getD i 0 := by
  have hzl : (xs.zip ys).length = xs.length := by
    rw [List.length_zip, hlen, min_self]
  have hpw := List.pairwise_iff_getElem.mp hmono
  have hfind : (xs.zip ys).findIdx (fun nd => decide (xs.getD i 0 ≤ nd.1)) = i := by
    refine (List.findIdx_eq (by omega)).mpr ⟨?_, ?_⟩
    · rw [List.getElem_zip]
      rw [List.getD_eq_getElem _ _ hi]
      simp
    · intro j hji
      rw [List.getElem_zip]
      simp only [decide_eq_false_iff_not, not_le]
      rw [List.getD_eq_getElem _ _ hi]
      exact hpw j i (by omega) hi hji
  rw [interpEval, hfind, hzl]
  rcases Nat.eq_zero_or_pos i with rfl | hipos
  · have hj : min (max 0 1) (xs.length - 1) = 1 := by omega
    rw [hj]
    rw [List.getD_eq_getElem _ _ (by omega : 0 < (xs.zip ys).length),
      List.getD_eq_getElem _ _ (by omega : 1 < (xs.zip ys).length),
      List.getElem_zip, List.getElem_zip]
    simp only [List.getD_eq_getElem _ _ hi,
      List.getD_eq_getElem _ _ (show 0 < ys.length by omega)]
    ring
  · have hj : min (max i 1) (xs.length - 1) = i := by omega
    rw [hj]
    rw [List.getD_eq_getElem _ _ (by omega : i - 1 < (xs.zip ys).length),
      List.getD_eq_getElem _ _ (by omega : i < (xs.zip ys).length),
      List.getElem_zip, List.getElem_zip]
    simp only [List.getD_eq_getElem _ _ hi,
      List.getD_eq_getElem _ _ (show i < ys.length by omega)]
    have hd : xs[i] - xs[i - 1] ≠ 0 :=
      sub_ne_zero.mpr (ne_of_gt (hpw (i - 1) i (by omega) hi (by omega)))
    field_simp

/-- Interpolating a strictly increasing curve at its own recall values
recovers its precision values. -/
theorem map_interpEval_nodes (xs ys : List ℚ) (hlen : xs.length = ys.length)
    (h2 : 2 ≤ xs.length) (hmono : List.Pairwise (fun a b : ℚ => a < b) xs) :
    xs.map (interpEval (sortNodes xs ys)) = ys := by
  rw [sortNodes_of_sorted xs ys hmono]
  refine List.ext_getElem (by simp [hlen]) ?_
  intro n h1 h2'
  rw [List.getElem_map]
  have hn : n < xs.length := by simpa using h1
  have := interpEval_node xs ys hlen h2 hmono hn
  rw [List.getD_eq_getElem _ _ hn, List.getD_eq_getElem _ _ (by omega : n < ys.length)] at this
  exact this

theorem mapM_replicate_ok {ε α β : Type} (f : α → Except ε β) (a : α) (b : β)
    (hf : f a = Except.ok b) :
    ∀ n, (List.replicate n a).mapM f = Except.ok (List.replicate n b) := by
  intro n
  induction n with
  | zero => rfl
  | succ n ih =>
      rw [List.replicate_succ, List.mapM_cons, hf, ih, List.replicate_succ]
      rfl

theorem colMean_replicate (row : List ℚ) (g n : ℕ) (hn : n ≠ 0) (hg : row.length = g) :
    colMean (List.replicate n row) g n = row := by
  refine List.ext_getElem (by simp [colMean, hg]) ?_
  intro j h1 h2
  have hj : j < row.length := by
    simpa [colMean, hg] using h1
  simp only [colMean, List.getElem_map, List.getElem_range, List.map_replicate,
    List.sum_replicate, nsmul_eq_mul]
  rw [List.getD_eq_getElem _ _ hj,
    mul_div_cancel_left₀ _ (by exact_mod_cast hn : ((n : ℚ)) ≠ 0)]

theorem colStd_replicate (row : List ℚ) (g n : ℕ) :
    colStd (List.replicate n row) row g n = List.replicate g 0 := by
  refine List.ext_getElem (by simp [colStd]) ?_
  intro j h1 h2
  simp only [colStd, List.getElem_map, List.getElem_range, List.map_replicate,
    List.sum_replicate, nsmul_eq_mul, List.getElem_replicate, sub_self]
  norm_num [ratSqrt]

theorem zipWith_sub_replicate_zero (l : List ℚ) :
    List.zipWith (fun a b => a - b) l (List.replicate l.length (0 : ℚ)) = l := by
  induction l with
  | nil => rfl
  | cons a t ih => simp [List.replicate_succ, ih]

theorem zipWith_add_replicate_zero (l : List ℚ) :
    List.zipWith (fun a b => a + b) l (List.replicate l.length (0 : ℚ)) = l := by
  induction l with
  | nil => rfl
  | cons a t ih => simp [List.replicate_succ, ih]

/-! ## Claim theorems: aggregation round-trip -/

/-- Claim C8 amended: aggregating `N ≥ 1` identical (well-formed, in-domain)
curves succeeds; the mean curve's recall is the grid and its precision is the
input curve's precision interpolated onto the grid; the lower and upper
dispersion curves coincide with the mean curve in recall, precision and F1
(the elementwise standard deviation is 0 everywhere); and when the grid is
exactly the curve's (strictly increasing) recall sequence, the mean curve's
precision equals the input curve's precision. -/
theorem claim8_amended_round_trip (N : ℕ) (c : Plot) (interp : List ℚ)
    (hN : 1 ≤ N) (h2 : 2 ≤ c.«recall».length) (hlen : c.«recall».length = c.precision.length)
    (hbin : c.bin_point.isSome) (hg2 : 2 ≤ interp.length)
    (hdom : ∀ q ∈ interp, (∃ r ∈ c.«recall», r ≤ q) ∧ (∃ r ∈ c.«recall», q ≤ r)) :
    ∃ res, mean_and_std (List.replicate N c) interp = Except.ok res ∧
      res.1.«recall» = interp ∧
      res.1.precision = interp.map (interpEval (sortNodes c.«recall» c.precision)) ∧
      res.2.1.«recall» = res.1.«recall» ∧ res.2.1.precision = res.1.precision ∧
      res.2.1.f1 = res.1.f1 ∧
      res.2.2.«recall» = res.1.«recall» ∧ res.2.2.precision = res.1.precision ∧
      res.2.2.f1 = res.1.f1 ∧
      (List.Pairwise (fun x y : ℚ => x < y) c.«recall» → interp = c.«recall» →
        res.1.precision = c.precision) := by
  have hplen : (List.replicate N c).length = N := List.length_replicate _ _
  obtain ⟨res, hres⟩ := mean_and_std_ok_of_in_range (List.replicate N c) interp
    (fun p hp => by
      rw [List.eq_of_mem_replicate hp]
      exact ⟨h2, hlen⟩)
    (by
      intro hcon
      rw [hcon] at hplen
      simp at hplen
      omega)
    (by
      intro hcon
      rw [hcon] at hg2
      simp at hg2)
    (fun p hp => by
      rw [List.eq_of_mem_replicate hp]
      exact hbin)
    (fun p hp => by
      rw [List.eq_of_mem_replicate hp]
      exact hdom)
  obtain ⟨rows, binPts, hrows, hbins, hshape⟩ := mean_and_std_ok_shape _ _ _ hres
  have hrowok : interpRow c interp =
      Except.ok (interp.map (interpEval (sortNodes c.«recall» c.precision))) :=
    interpRow_ok_of_in_range c interp h2 hlen hdom
  have hrows2 : (List.replicate N c).mapM (fun p => interpRow p interp) =
      Except.ok (List.replicate N
        (interp.map (interpEval (sortNodes c.«recall» c.precision)))) :=
    mapM_replicate_ok (fun p => interpRow p interp) c _ hrowok N
  have hrowseq : rows = List.replicate N
      (interp.map (interpEval (sortNodes c.«recall» c.precision))) :=
    Except.ok.inj (hrows.symm.trans hrows2)
  have hrl : (interp.map (interpEval (sortNodes c.«recall» c.precision))).length =
      interp.length := by simp
  have hmean : colMean rows interp.length (List.replicate N c).length =
      interp.map (interpEval (sortNodes c.«recall» c.precision)) := by
    rw [hrowseq, hplen]
    exact colMean_replicate _ interp.length N (by omega) hrl
  have hstd : colStd rows (colMean rows interp.length (List.replicate N c).length)
      interp.length (List.replicate N c).length = List.replicate interp.length 0 := by
    rw [hmean, hrowseq, hplen]
    exact colStd_replicate _ interp.length N
  have hsub : List.zipWith (fun a b => a - b)
      (interp.map (interpEval (sortNodes c.«recall» c.precision)))
      (List.replicate interp.length 0) =
      interp.map (interpEval (sortNodes c.«recall» c.precision)) := by
    rw [← hrl]
    exact zipWith_sub_replicate_zero _
  have hadd : List.zipWith (fun a b => a + b)
      (interp.map (interpEval (sortNodes c.«recall» c.precision)))
      (List.replicate interp.length 0) =
      interp.map (interpEval (sortNodes c.«recall» c.precision)) := by
    rw [← hrl]
    exact zipWith_add_replicate_zero _
  refine ⟨res, hres, ?_⟩
  rw [hshape]
  rw [hstd, hmean, hsub, hadd]
  refine ⟨(mkPlot_of_two_le _ _ _ _ _ _ hg2).1, (mkPlot_of_two_le _ _ _ _ _ _ hg2).2,
    (mkPlot_of_two_le _ _ _ _ _ _ hg2).1.trans
      ((mkPlot_of_two_le _ _ _ _ _ _ hg2).1).symm,
    (mkPlot_of_two_le _ _ _ _ _ _ hg2).2.trans
      ((mkPlot_of_two_le _ _ _ _ _ _ hg2).2).symm,
    by rw [mkPlot_f1, mkPlot_f1],
    (mkPlot_of_two_le _ _ _ _ _ _ hg2).1.trans
      ((mkPlot_of_two_le _ _ _ _ _ _ hg2).1).symm,
    (mkPlot_of_two_le _ _ _ _ _ _ hg2).2.trans
      ((mkPlot_of_two_le _ _ _ _ _ _ hg2).2).symm,
    by rw [mkPlot_f1, mkPlot_f1], ?_⟩
  intro hmono hint
  rw [(mkPlot_of_two_le _ _ _ _ _ _ hg2).2, hint]
  exact map_interpEval_nodes c.«recall» c.precision hlen h2 hmono

/-- Witness for C7 at a concrete single-curve aggregation. -/
theorem claim7_out_of_domain_error_witness :
    (∀ p ∈ [mkPlot [0, 1] [1, 0] none none none (some (0, 0))],
        2 ≤ p.«recall».length ∧ p.«recall».length = p.precision.length) ∧
    (((∃ p ∈ [mkPlot [0, 1] [1, 0] none none none (some (0, 0))], ∃ q ∈ [(0 : ℚ), 1/2, 1],
          (∀ r ∈ p.«recall», q < r) ∨ (∀ r ∈ p.«recall», r < q)) →
        ∃ msg, mean_and_std [mkPlot [0, 1] [1, 0] none none none (some (0, 0))]
          [(0 : ℚ), 1/2, 1] = Except.error msg) ∧
      (([mkPlot [0, 1] [1, 0] none none none (some (0, 0))] ≠ ([] : List Plot) ∧
          [(0 : ℚ), 1/2, 1] ≠ [] ∧
          (∀ p ∈ [mkPlot [0, 1] [1, 0] none none none (some (0, 0))],
            p.bin_point.isSome) ∧
          ∀ p ∈ [mkPlot [0, 1] [1, 0] none none none (some (0, 0))],
            ∀ q ∈ [(0 : ℚ), 1/2, 1],
              (∃ r ∈ p.«recall», r ≤ q) ∧ (∃ r ∈ p.«recall», q ≤ r)) →
        ∃ res, mean_and_std [mkPlot [0, 1] [1, 0] none none none (some (0, 0))]
          [(0 : ℚ), 1/2, 1] = Except.ok res)) :=
  ⟨by
    intro p hp
    rw [List.mem_singleton.mp hp]
    norm_num [mkPlot],
   claim7_out_of_domain_error _ _ (by
    intro p hp
    rw [List.mem_singleton.mp hp]
    norm_num [mkPlot])⟩

/-- Claim C8 as stated is false: aggregating two copies of the curve with
recall `[0,1]` and precision `[1,0]` onto the grid `[0, 1/2, 1]` yields a
mean curve whose recall is the grid, not the input curve's recall - the
result is not identical to the input curve. -/
theorem claim8_counterexample :
    (mean_and_std (List.replicate 2 (mkPlot [0, 1] [1, 0] none none none (some (0, 0))))
        [0, 1/2, 1]).toOption.map (fun t => t.1.«recall») = some [0, 1/2, 1] ∧
    (mkPlot [0, 1] [1, 0] none none none (some (0, 0))).«recall» = [0, 1] ∧
    ([0, 1/2, 1] : List ℚ) ≠ [0, 1] := by
  norm_num [mean_and_std, interpRow, sortNodes, interpEval, colMean, colStd, ratSqrt, fSpec,
    npArgmax, mkPlot, f1Of, except_bind_ok, except_bind_error, List.mapM, List.mapM.loop,
    List.insertionSort, List.orderedInsert, List.range, List.range.loop, List.findIdx,
    List.findIdx.go, List.all, List.zip, List.zipWith, List.getD, List.headD, List.getLastD,
    List.replicate, Except.toOption, Option.map, Bind.bind, Except.bind, Pure.pure,
    Except.pure]

/-- Witness for the amended C8: two copies of the strictly increasing curve
(`[0,1]`, `[1,0]`) aggregated onto its own recall sequence as the grid. -/
theorem claim8_amended_round_trip_witness :
    ∃ res, mean_and_std
        (List.replicate 2 (mkPlot [0, 1] [1, 0] none none none (some (0, 0))))
        [0, 1] = Except.ok res ∧
      res.1.«recall» = [0, 1] ∧
      res.1.precision = ([0, 1] : List ℚ).map (interpEval
        (sortNodes (mkPlot [0, 1] [1, 0] none none none (some (0, 0))).«recall»
          (mkPlot [0, 1] [1, 0] none none none (some (0, 0))).precision)) ∧
      res.2.1.«recall» = res.1.«recall» ∧ res.2.1.precision = res.1.precision ∧
      res.2.1.f1 = res.1.f1 ∧
      res.2.2.«recall» = res.1.«recall» ∧ res.2.2.precision = res.1.precision ∧
      res.2.2.f1 = res.1.f1 ∧
      (List.Pairwise (fun x y : ℚ => x < y)
          (mkPlot [0, 1] [1, 0] none none none (some (0, 0))).«recall» →
        ([0, 1] : List ℚ) = (mkPlot [0, 1] [1, 0] none none none (some (0, 0))).«recall» →
        res.1.precision = (mkPlot [0, 1] [1, 0] none none none (some (0, 0))).precision) := by
  have h := claim8_amended_round_trip 2 (mkPlot [0, 1] [1, 0] none none none (some (0, 0)))
    [0, 1] (by norm_num) (by norm_num [mkPlot]) (by norm_num [mkPlot])
    (by norm_num [mkPlot]) (by norm_num)
    (by
      intro q hq
      have hrec : (mkPlot [0, 1] [1, 0] none none none (some (0, 0))).«recall» = [0, 1] := by
        norm_num [mkPlot]
      rw [hrec]
      rcases List.mem_cons.mp hq with rfl | hq'
      · exact ⟨⟨0, by norm_num⟩, ⟨0, by norm_num⟩⟩
      · rcases List.mem_cons.mp hq' with rfl | hq''
        · exact ⟨⟨0, by norm_num⟩, ⟨1, by norm_num⟩⟩
        · cases hq'')
  exact h

/-- Claim C9: aggregating the curves (`[0,1]`,`[1,0]`) and (`[0,1]`,`[1/2,1/2]`)
onto the grid `[0, 1/2, 1]`: precision is interpolated per curve, the
elementwise mean is `[3/4, 1/2, 1/4]` and the elementwise standard deviation
is `[1/4, 0, 1/4]` (so lower/upper precision are `mean ∓ std`). -/
theorem claim9_concrete_aggregation :
    (mean_and_std [mkPlot [0, 1] [1, 0] none none none (some (0, 0)),
        mkPlot [0, 1] [1/2, 1/2] none none none (some (0, 0))] [0, 1/2, 1]).toOption.map
      (fun t => (t.1.precision, t.2.1.precision, t.2.2.precision)) =
      some ([3/4, 1/2, 1/4], [1/2, 1/2, 0], [1, 1/2, 1/2]) ∧
    ([0, 1/2, 1] : List ℚ).map (interpEval (sortNodes [0, 1] [1, 0])) = [1, 1/2, 0] ∧
    ([0, 1/2, 1] : List ℚ).map (interpEval (sortNodes [0, 1] [1/2, 1/2])) =
      [1/2, 1/2, 1/2] ∧
    colMean [[1, 1/2, 0], [1/2, 1/2, 1/2]] 3 2 = [3/4, 1/2, 1/4] ∧
    colStd [[1, 1/2, 0], [1/2, 1/2, 1/2]] [3/4, 1/2, 1/4] 3 2 = [1/4, 0, 1/4] := by
  norm_num [mean_and_std, interpRow, sortNodes, interpEval, colMean, colStd, ratSqrt, fSpec,
    npArgmax, mkPlot, f1Of, except_bind_ok, except_bind_error, List.mapM, List.mapM.loop,
    List.insertionSort, List.orderedInsert, List.range, List.range.loop, List.findIdx,
    List.findIdx.go, List.all, List.zip, List.zipWith, List.getD, List.headD, List.getLastD,
    List.replicate, Except.toOption, Option.map, Bind.bind, Except.bind, Pure.pure,
    Except.pure]

/-- Witness for the amended C6: the evaluate part at spec scenario 1's triple
and the aggregate part at a concrete successful single-curve aggregation. -/
theorem claim6_amended_curve_invariant_witness :
    ([true, true, false, false] : List Bool).length =
      ([9/10, 8/10, 1/10, 2/10] : List ℚ).length ∧
    0 < ([9/10, 8/10, 1/10, 2/10] : List ℚ).length ∧
    ((evaluatePure [9/10, 8/10, 1/10, 2/10] [true, true, false, false]
        [true, true, false, false]).2.2.«recall».length =
      (evaluatePure [9/10, 8/10, 1/10, 2/10] [true, true, false, false]
        [true, true, false, false]).2.2.precision.length ∧
     2 ≤ (evaluatePure [9/10, 8/10, 1/10, 2/10] [true, true, false, false]
        [true, true, false, false]).2.2.«recall».length ∧
     (evaluatePure [9/10, 8/10, 1/10, 2/10] [true, true, false, false]
        [true, true, false, false]).2.2.threshold =
       some (dedupThresholds [true, true, false, false]
         (repairPred [9/10, 8/10, 1/10, 2/10])) ∧
     (evaluatePure [9/10, 8/10, 1/10, 2/10] [true, true, false, false]
        [true, true, false, false]).2.2.f1 =
       dedupF1s [true, true, false, false] (repairPred [9/10, 8/10, 1/10, 2/10]) ∧
     (dedupF1s [true, true, false, false] (repairPred [9/10, 8/10, 1/10, 2/10])).length =
       (dedupThresholds [true, true, false, false]
         (repairPred [9/10, 8/10, 1/10, 2/10])).length ∧
     (2 ≤ (dedupRecalls [true, true, false, false]
          (repairPred [9/10, 8/10, 1/10, 2/10])).length →
       (evaluatePure [9/10, 8/10, 1/10, 2/10] [true, true, false, false]
          [true, true, false, false]).2.2.«recall» =
         dedupRecalls [true, true, false, false] (repairPred [9/10, 8/10, 1/10, 2/10]) ∧
       (evaluatePure [9/10, 8/10, 1/10, 2/10] [true, true, false, false]
          [true, true, false, false]).2.2.precision =
         dedupPrecisions [true, true, false, false] (repairPred [9/10, 8/10, 1/10, 2/10]) ∧
       (evaluatePure [9/10, 8/10, 1/10, 2/10] [true, true, false, false]
          [true, true, false, false]).2.2.f1.length =
         (evaluatePure [9/10, 8/10, 1/10, 2/10] [true, true, false, false]
          [true, true, false, false]).2.2.«recall».length)) ∧
    mean_and_std [mkPlot [0, 1] [1, 0] none none none (some (0, 0))] [0, 1/2, 1] =
      Except.ok (⟨[0, 1/2, 1], [1, 1/2, 0], none, [0, 1/2, 0], some (1/2, 1/2), some (0, 0)⟩,
        ⟨[0, 1/2, 1], [1, 1/2, 0], none, [0, 1/2, 0], none, none⟩,
        ⟨[0, 1/2, 1], [1, 1/2, 0], none, [0, 1/2, 0], none, none⟩) ∧
    2 ≤ ([(0 : ℚ), 1/2, 1]).length ∧
    (((⟨[0, 1/2, 1], [1, 1/2, 0], none, [0, 1/2, 0], some (1/2, 1/2), some (0, 0)⟩,
        ⟨[0, 1/2, 1], [1, 1/2, 0], none, [0, 1/2, 0], none, none⟩,
        ⟨[0, 1/2, 1], [1, 1/2, 0], none, [0, 1/2, 0], none, none⟩) :
          Plot × Plot × Plot).1.«recall» = [0, 1/2, 1] ∧
      ((⟨[0, 1/2, 1], [1, 1/2, 0], none, [0, 1/2, 0], some (1/2, 1/2), some (0, 0)⟩,
        ⟨[0, 1/2, 1], [1, 1/2, 0], none, [0, 1/2, 0], none, none⟩,
        ⟨[0, 1/2, 1], [1, 1/2, 0], none, [0, 1/2, 0], none, none⟩) :
          Plot × Plot × Plot).1.precision.length = ([(0 : ℚ), 1/2, 1]).length ∧
      ((⟨[0, 1/2, 1], [1, 1/2, 0], none, [0, 1/2, 0], some (1/2, 1/2), some (0, 0)⟩,
        ⟨[0, 1/2, 1], [1, 1/2, 0], none, [0, 1/2, 0], none, none⟩,
        ⟨[0, 1/2, 1], [1, 1/2, 0], none, [0, 1/2, 0], none, none⟩) :
          Plot × Plot × Plot).1.f1.length = ([(0 : ℚ), 1/2, 1]).length ∧
      ((⟨[0, 1/2, 1], [1, 1/2, 0], none, [0, 1/2, 0], some (1/2, 1/2), some (0, 0)⟩,
        ⟨[0, 1/2, 1], [1, 1/2, 0], none, [0, 1/2, 0], none, none⟩,
        ⟨[0, 1/2, 1], [1, 1/2, 0], none, [0, 1/2, 0], none, none⟩) :
          Plot × Plot × Plot).1.threshold = none) := by
  have hok : mean_and_std [mkPlot [0, 1] [1, 0] none none none (some (0, 0))] [0, 1/2, 1] =
      Except.ok (⟨[0, 1/2, 1], [1, 1/2, 0], none, [0, 1/2, 0], some (1/2, 1/2), some (0, 0)⟩,
        ⟨[0, 1/2, 1], [1, 1/2, 0], none, [0, 1/2, 0], none, none⟩,
        ⟨[0, 1/2, 1], [1, 1/2, 0], none, [0, 1/2, 0], none, none⟩) := by
    norm_num [mean_and_std, interpRow, sortNodes, interpEval, colMean, colStd, ratSqrt, fSpec,
      npArgmax, mkPlot, f1Of, except_bind_ok, except_bind_error, List.mapM, List.mapM.loop,
      List.insertionSort, List.orderedInsert, List.range, List.range.loop, List.findIdx,
      List.findIdx.go, List.all, List.zip, List.zipWith, List.getD, List.headD, List.getLastD,
      Bind.bind, Except.bind, Pure.pure, Except.pure]
  exact ⟨by decide, by decide,
    (claim6_amended_curve_invariant.1 [9/10, 8/10, 1/10, 2/10] [true, true, false, false]
      [true, true, false, false] (by decide) (by decide)),
    hok, by norm_num,
    ((claim6_amended_curve_invariant.2 [mkPlot [0, 1] [1, 0] none none none (some (0, 0))]
      [0, 1/2, 1] _ hok (by norm_num)).1)⟩

end SSBC
